import Mathlib

/-!
Verification of the data-cleaning / feature-derivation pipeline of the
uber-dashboard repository (src/app.py), against its natural-language
specification.

The table model is a list of named columns; a column is a list of cells.
A cell is either missing (pandas NaN/NaT/NA), a string, a rational number
(modelling pandas float/int values), a calendar date (modelling a parsed
pandas Timestamp at midnight), or a boolean.

Library calls made by the source (pandas string methods, `pd.to_datetime`,
`pd.to_numeric`, `Series.median`, the regex used by `str.extract`) are
modelled by explicit executable Lean functions; each carries a doc comment
saying what it models.  All ASCII-level string processing follows Python
semantics on ASCII input.
-/

namespace Uber

/-- A single cell of the table. -/
inductive Cell where
  | missing
  | str (s : String)
  | num (q : ℚ)
  | date (y m d : Nat)
  | bool (b : Bool)
deriving DecidableEq, Repr

/-- A named column. -/
structure Col where
  name : String
  cells : List Cell
deriving DecidableEq, Repr

/-- A data frame: ordered list of named columns. -/
abbrev DF := List Col

/-- Does the frame have a column with this name? -/
def hasColB (df : DF) (n : String) : Bool := df.any (fun c => c.name == n)

/-- `df[n]`: the cells of the first column named `n`. -/
def getCol (df : DF) (n : String) : Option (List Cell) :=
  (df.find? (fun c => c.name == n)).map Col.cells

/-- `df[n] = v`: replace the cells of every column named `n`, or append a new
column at the end when no such column exists (pandas assignment semantics). -/
def setCol (df : DF) (n : String) (v : List Cell) : DF :=
  if hasColB df n then df.map (fun c => if c.name == n then ⟨n, v⟩ else c)
  else df ++ [⟨n, v⟩]

/-- `df.rename(columns={old: nw})`: rename every column labelled `old`. -/
def renameCol (df : DF) (old nw : String) : DF :=
  df.map (fun c => if c.name == old then ⟨nw, c.cells⟩ else c)

/-- The list of column names, in order. -/
def colNames (df : DF) : List String := df.map Col.name

/-! ### Character and string helpers (Python semantics on ASCII) -/

/-- Whitespace stripped by Python `str.strip` (ASCII subset). -/
def isSpaceChar (c : Char) : Bool := c == ' ' || c == '\t' || c == '\n' || c == '\r'

def isDigitChar (c : Char) : Bool := 48 ≤ c.toNat && c.toNat ≤ 57

def digitVal (c : Char) : Nat := c.toNat - 48

def isAlphaChar (c : Char) : Bool :=
  (65 ≤ c.toNat && c.toNat ≤ 90) || (97 ≤ c.toNat && c.toNat ≤ 122)

def lowerChar (c : Char) : Char :=
  if 65 ≤ c.toNat && c.toNat ≤ 90 then Char.ofNat (c.toNat + 32) else c

def upperChar (c : Char) : Char :=
  if 97 ≤ c.toNat && c.toNat ≤ 122 then Char.ofNat (c.toNat - 32) else c

/-- Python `str.strip()` (ASCII whitespace). -/
def stripList (l : List Char) : List Char :=
  ((l.dropWhile isSpaceChar).reverse.dropWhile isSpaceChar).reverse

def pyStrip (s : String) : String := String.mk (stripList s.data)

/-- Python `str.lower()` (ASCII). -/
def pyLower (s : String) : String := String.mk (s.data.map lowerChar)

/-- Python `str.title()`: a cased character starting a word is upper-cased,
every other cased character is lower-cased; word boundaries are non-cased
characters.  The boolean tracks whether the previous character was cased. -/
def titleAux : Bool → List Char → List Char
  | _, [] => []
  | prevAlpha, c :: rest =>
    (if isAlphaChar c then (if prevAlpha then lowerChar c else upperChar c) else c)
      :: titleAux (isAlphaChar c) rest

def pyTitle (s : String) : String := String.mk (titleAux false s.data)

/-- Decimal digits of the fractional part of `r / d` (long division, bounded
fuel; every rational produced by this pipeline has a terminating decimal). -/
def fracDigitsAux : Nat → Nat → Nat → String
  | 0, _, _ => ""
  | _ + 1, 0, _ => ""
  | fuel + 1, r, d =>
    let r10 := r * 10
    toString (r10 / d) ++ fracDigitsAux fuel (r10 % d) d

/-- Models Python `str(float)` as produced by `Series.astype(str)` on numeric
cells: integers render as "n.0", other values with their decimal digits. -/
def ratRepr (q : ℚ) : String :=
  let sign := if q.num < 0 then "-" else ""
  let n := q.num.natAbs
  let ip := n / q.den
  let r := n % q.den
  if r = 0 then sign ++ toString ip ++ ".0"
  else sign ++ toString ip ++ "." ++ fracDigitsAux 30 r q.den

def padZeros (k : Nat) (s : String) : String :=
  String.mk (List.replicate (k - s.length) '0') ++ s

/-- Models pandas `Series.astype(str)` on one cell: NaN renders as "nan",
booleans as "True"/"False", parsed dates as the Timestamp string. -/
def pyStr : Cell → String
  | Cell.missing => "nan"
  | Cell.str s => s
  | Cell.num q => ratRepr q
  | Cell.bool b => if b then "True" else "False"
  | Cell.date y m d =>
    padZeros 4 (toString y) ++ "-" ++ padZeros 2 (toString m) ++ "-"
      ++ padZeros 2 (toString d) ++ " 00:00:00"

/-! ### Modelled library parsers -/

/-- Parse one or two leading decimal digits. -/
def parse2 : List Char → Option (Nat × List Char)
  | [] => none
  | [c] => if isDigitChar c then some (digitVal c, []) else none
  | c :: d :: rest =>
    if isDigitChar c then
      if isDigitChar d then some (10 * digitVal c + digitVal d, rest)
      else some (digitVal c, d :: rest)
    else none

/-- Hour of a time-of-day string "H:MM", "HH:MM", optionally ":SS". -/
def parseTimeOfDay (l : List Char) : Option Nat :=
  match parse2 l with
  | some (h, ':' :: m1 :: m2 :: rest) =>
    if isDigitChar m1 && isDigitChar m2 && decide (h ≤ 23)
        && decide (10 * digitVal m1 + digitVal m2 ≤ 59) then
      match rest with
      | [] => some h
      | ':' :: s1 :: s2 :: [] =>
        if isDigitChar s1 && isDigitChar s2
            && decide (10 * digitVal s1 + digitVal s2 ≤ 59) then some h else none
      | _ => none
    else none
  | _ => none

/-- Models `pd.to_datetime(series, errors="coerce").dt.hour` on one cell for
time-of-day strings (the format of the dataset's `Time` column): a string of
shape "HH:MM" or "HH:MM:SS" with in-range fields yields its hour, anything
else (including missing cells) yields NaN. -/
def parseTimeHour : Cell → Option Nat
  | Cell.str s => parseTimeOfDay (stripList s.data)
  | _ => none

/-- Models the group captured by the regex `(\d{1,2})(?::\d{2})?` under
`Series.str.extract` (i.e. `re.search`): the first maximal run of one or two
digits anywhere in the string, or nothing when the string has no digit. -/
def extractHourAux : List Char → Option Nat
  | [] => none
  | c :: rest =>
    if isDigitChar c then
      match rest with
      | d :: _ => if isDigitChar d then some (10 * digitVal c + digitVal d)
                  else some (digitVal c)
      | [] => some (digitVal c)
    else extractHourAux rest

def extractHour (s : String) : Option Nat := extractHourAux s.data

/-- ISO date "YYYY-MM-DD". -/
def parseDateList : List Char → Option (Nat × Nat × Nat)
  | [y1, y2, y3, y4, '-', m1, m2, '-', d1, d2] =>
    if isDigitChar y1 && isDigitChar y2 && isDigitChar y3 && isDigitChar y4
        && isDigitChar m1 && isDigitChar m2 && isDigitChar d1 && isDigitChar d2 then
      let m := 10 * digitVal m1 + digitVal m2
      let d := 10 * digitVal d1 + digitVal d2
      if 1 ≤ m && m ≤ 12 && 1 ≤ d && d ≤ 31 then
        some (1000 * digitVal y1 + 100 * digitVal y2 + 10 * digitVal y3 + digitVal y4, m, d)
      else none
    else none
  | _ => none

/-- Models `pd.to_datetime(series, errors="coerce")` on one cell of the `Date`
column: already-parsed dates pass through, ISO date strings parse, everything
else coerces to NaT. -/
def toDatetimeCell : Cell → Cell
  | Cell.date y m d => Cell.date y m d
  | Cell.str s =>
    match parseDateList (stripList s.data) with
    | some (y, m, d) => Cell.date y m d
    | none => Cell.missing
  | _ => Cell.missing

/-- Decimal number string: optional sign, digits, optional fractional part.
Requires at least one digit and no trailing garbage. -/
def parseDecimal (l : List Char) : Option ℚ :=
  let core : List Char → Option ℚ := fun l =>
    let intPart := l.takeWhile isDigitChar
    let rest := l.dropWhile isDigitChar
    let (fracPart, tail) :=
      match rest with
      | '.' :: r => (r.takeWhile isDigitChar, r.dropWhile isDigitChar)
      | r => ([], r)
    if tail = [] ∧ (intPart ≠ [] ∨ fracPart ≠ []) then
      let iv : Nat := intPart.foldl (fun a c => 10 * a + digitVal c) 0
      let fv : Nat := fracPart.foldl (fun a c => 10 * a + digitVal c) 0
      some ((iv : ℚ) + (fv : ℚ) / ((10 : ℚ) ^ fracPart.length))
    else none
  match l with
  | '-' :: r => (core r).map (fun q => -q)
  | '+' :: r => core r
  | r => core r

/-- Models `pd.to_numeric(series, errors="coerce")` on one cell: numbers pass
through, booleans become 0/1, decimal strings parse, everything else
(including missing cells) coerces to NaN. -/
def toNumericCell : Cell → Cell
  | Cell.num q => Cell.num q
  | Cell.bool b => Cell.num (if b then 1 else 0)
  | Cell.str s =>
    match parseDecimal (stripList s.data) with
    | some q => Cell.num q
    | none => Cell.missing
  | _ => Cell.missing

/-! ### Median -/

def insertSorted (x : ℚ) : List ℚ → List ℚ
  | [] => [x]
  | y :: ys => if x ≤ y then x :: y :: ys else y :: insertSorted x ys

def sortQ : List ℚ → List ℚ
  | [] => []
  | x :: xs => insertSorted x (sortQ xs)

/-- The numeric values of a column, in order, skipping non-numeric cells. -/
def numericVals (cs : List Cell) : List ℚ :=
  cs.filterMap (fun c => match c with | Cell.num q => some q | _ => none)

/-- Models `Series.median()` (skipna): middle element of the sorted values for
odd count, mean of the two middle elements for even count, NaN when empty. -/
def medianQ (xs : List ℚ) : Option ℚ :=
  let ys := sortQ xs
  let n := ys.length
  if n = 0 then none
  else if n % 2 = 1 then some (ys.getD (n / 2) 0)
  else some ((ys.getD (n / 2 - 1) 0 + ys.getD (n / 2) 0) / 2)

/-- `series.fillna(v)`. -/
def fillNa (cs : List Cell) (v : ℚ) : List Cell :=
  cs.map (fun c => match c with | Cell.missing => Cell.num v | c => c)

/-- `df[col].fillna(df[col].median())`: when the median is NaN (no numeric
values) nothing is filled. -/
def fillMedianCol (cs : List Cell) : List Cell :=
  match medianQ (numericVals cs) with
  | some m => fillNa cs m
  | none => cs

/-! ### The pipeline steps (src/app.py, `preprocess`) -/

/-- Line 32: trim whitespace from every column name. -/
def trimCols (df : DF) : DF := df.map (fun c => ⟨pyStrip c.name, c.cells⟩)

/-- Lines 36-41, one alias: rename `lo` to `hi` only when `lo` is present and
`hi` is not. -/
def aliasStep (df : DF) (lo hi : String) : DF :=
  if hasColB df lo && !hasColB df hi then renameCol df lo hi else df

def aliasPairs : List (String × String) :=
  [("date", "Date"), ("time", "Time"), ("booking value", "Booking Value")]

def normalizeAliases (df : DF) : DF :=
  aliasStep (aliasStep (aliasStep df "date" "Date") "time" "Time") "booking value" "Booking Value"

/-- Lines 44-45: parse the `Date` column. -/
def dateStep (df : DF) : DF :=
  match getCol df "Date" with
  | some cs => setCol df "Date" (cs.map toDatetimeCell)
  | none => df

def hourCell : Option Nat → Cell
  | some h => Cell.num h
  | none => Cell.missing

/-- Lines 46-55, the derived `Hour` series.  If at least one value parses as a
time the hours come from the parse (NaT rows become NaN); otherwise the hour
is extracted from the string form by the regex `(\d{1,2})(?::\d{2})?`. -/
def hourColumn (cs : List Cell) : List Cell :=
  if (cs.map parseTimeHour).any Option.isSome then (cs.map parseTimeHour).map hourCell
  else cs.map (fun c => hourCell (extractHour (pyStr c)))

/-- Lines 46-55: derive `Hour` from `Time`. -/
def timeStep (df : DF) : DF :=
  match getCol df "Time" with
  | some cs => setCol df "Hour" (hourColumn cs)
  | none => df

/-- Lines 58-59: the columns coerced to numeric. -/
def numericCols : List String :=
  ["Booking Value", "Ride Distance", "Driver Ratings", "Customer Rating",
   "Cancelled Rides by Customer", "Cancelled Rides by Driver", "Incomplete Rides"]

def coerceStep1 (df : DF) (col : String) : DF :=
  match getCol df col with
  | some cs => setCol df col (cs.map toNumericCell)
  | none => df

/-- Lines 58-61: coerce each present numeric-candidate column. -/
def numericStep (df : DF) : DF := numericCols.foldl coerceStep1 df

/-- Line 64: the columns whose missing values get the median. -/
def imputeCols : List String :=
  ["Driver Ratings", "Customer Rating", "Booking Value", "Ride Distance"]

def fillStep1 (df : DF) (col : String) : DF :=
  match getCol df col with
  | some cs => setCol df col (fillMedianCol cs)
  | none => df

/-- Lines 63-66: median imputation. -/
def medianFillStep (df : DF) : DF := imputeCols.foldl fillStep1 df

/-- `.dt.date` on one cell. -/
def dayCell : Cell → Cell
  | Cell.date y m d => Cell.date y m d
  | _ => Cell.missing

def dayNames : List String :=
  ["Sunday", "Monday", "Tuesday", "Wednesday", "Thursday", "Friday", "Saturday"]

/-- Sakamoto's day-of-week formula (0 = Sunday). -/
def dowIdx (y m d : Nat) : Nat :=
  let t := [0, 3, 2, 5, 0, 3, 5, 1, 4, 6, 2, 4]
  let y' := y - (if m < 3 then 1 else 0)
  (y' + y' / 4 + y' / 400 + t.getD (m - 1) 0 + d - y' / 100) % 7

/-- `.dt.day_name()` on one cell. -/
def dowCell : Cell → Cell
  | Cell.date y m d => Cell.str (dayNames.getD (dowIdx y m d) "")
  | _ => Cell.missing

/-- `.dt.to_period("M").astype(str)` on one cell (NaT renders as "NaT"). -/
def monthCell : Cell → Cell
  | Cell.date y m _ => Cell.str (padZeros 4 (toString y) ++ "-" ++ padZeros 2 (toString m))
  | _ => Cell.str "NaT"

/-- Lines 69-72: derive `Day`, `DayOfWeek`, `Month` from `Date`. -/
def dateFeaturesStep (df : DF) : DF :=
  match getCol df "Date" with
  | some cs =>
    setCol (setCol (setCol df "Day" (cs.map dayCell))
      "DayOfWeek" (cs.map dowCell)) "Month" (cs.map monthCell)
  | none => df

/-- `.fillna("Unknown")` followed by string concatenation.  Location columns
of the dataset hold strings or NaN; other cell kinds are rendered via their
string form. -/
def fillUnknown : Cell → String
  | Cell.missing => "Unknown"
  | Cell.str s => s
  | c => pyStr c

def routeCell (p q : Cell) : Cell :=
  Cell.str (fillUnknown p ++ " → " ++ fillUnknown q)

/-- Lines 73-74: derive `Route` when both location columns are present. -/
def routeStep (df : DF) : DF :=
  match getCol df "Pickup Location", getCol df "Drop Location" with
  | some ps, some qs => setCol df "Route" (List.zipWith routeCell ps qs)
  | _, _ => df

/-- Line 78: `astype(str).str.title().replace({"Canceled": "Cancelled"})`. -/
def normStatusStr (s : String) : String :=
  if pyTitle s = "Canceled" then "Cancelled" else pyTitle s

def statusCell (c : Cell) : Cell := Cell.str (normStatusStr (pyStr c))

/-- Lines 77-81: normalize `Booking Status` and derive the three flags. -/
def statusStep (df : DF) : DF :=
  match getCol df "Booking Status" with
  | some cs =>
    let bs := cs.map statusCell
    setCol (setCol (setCol (setCol df "Booking Status" bs)
        "Is_Completed" (bs.map (fun c => Cell.bool (c == Cell.str "Completed"))))
        "Is_Cancelled" (bs.map (fun c => Cell.bool (c == Cell.str "Cancelled"))))
        "Is_Incomplete" (bs.map (fun c => Cell.bool (c == Cell.str "Incomplete")))
  | none => df

/-- Lines 27-82: the whole cleaning pipeline. -/
def preprocess (df : DF) : DF :=
  statusStep (routeStep (dateFeaturesStep (medianFillStep (numericStep
    (timeStep (dateStep (normalizeAliases (trimCols df))))))))

/-! ### Aggregation snippets used by the claims -/

def cancelTokens : List String := ["0", "0.0", "nan", "none", "", "false"]

/-- Is this stringified cell non-missing?  After `astype(str)` every cell is a
string, so this is always true; it mirrors the `col.notna()` conjunct of the
source. -/
def notNaCell : Cell → Bool
  | Cell.missing => false
  | _ => true

/-- Lines 242-245 / 247-249: the text truthiness heuristic applied to one cell
of a cancellation-by-actor column: `(~col.isin(tokens)) & col.notna()` after
`astype(str).str.strip().str.lower()`. -/
def isCancelledCell (c : Cell) : Bool :=
  let s := pyLower (pyStrip (pyStr c))
  !(cancelTokens.contains s) && notNaCell (Cell.str s)

/-- Line 243-245: the customer-initiated cancellation flag series. -/
def isCancelledCust (df : DF) : Option (List Bool) :=
  (getCol df "Cancelled Rides by Customer").map (fun cs => cs.map isCancelledCell)

/-- Line 247-249: the driver-initiated cancellation flag series. -/
def isCancelledDrv (df : DF) : Option (List Bool) :=
  (getCol df "Cancelled Rides by Driver").map (fun cs => cs.map isCancelledCell)

/-- Line 194: per-column missing count of the cleaned frame, `df.isna().sum()`. -/
def missingCount (cs : List Cell) : Nat := cs.count Cell.missing

/-! ### Basic frame lemmas -/

theorem hasColB_cons (c : Col) (df : DF) (n : String) :
    hasColB (c :: df) n = (c.name == n || hasColB df n) := by
  simp [hasColB]

theorem getCol_cons (c : Col) (df : DF) (n : String) :
    getCol (c :: df) n = if c.name == n then some c.cells else getCol df n := by
  by_cases h : c.name == n <;> simp [getCol, List.find?_cons, h]

theorem getCol_isSome (df : DF) (n : String) : (getCol df n).isSome = hasColB df n := by
  induction df with
  | nil => simp [getCol, hasColB]
  | cons c rest ih =>
    rw [getCol_cons, hasColB_cons]
    by_cases h : c.name == n <;> simp [h, ih]

/-- The all-columns replacement used by `setCol` in the present case. -/
def setAllCol (df : DF) (n : String) (v : List Cell) : DF :=
  df.map (fun c => if c.name == n then ⟨n, v⟩ else c)

theorem setCol_eq (df : DF) (n : String) (v : List Cell) :
    setCol df n v = if hasColB df n then setAllCol df n v else df ++ [⟨n, v⟩] := rfl

theorem setAllCol_cons (c : Col) (df : DF) (n : String) (v : List Cell) :
    setAllCol (c :: df) n v
      = (if c.name == n then ⟨n, v⟩ else c) :: setAllCol df n v := rfl

theorem renameCol_cons (c : Col) (df : DF) (lo hi : String) :
    renameCol (c :: df) lo hi
      = (if c.name == lo then ⟨hi, c.cells⟩ else c) :: renameCol df lo hi := rfl

theorem getCol_setAllCol_self (df : DF) (n : String) (v : List Cell)
    (h : hasColB df n = true) : getCol (setAllCol df n v) n = some v := by
  induction df with
  | nil => simp [hasColB] at h
  | cons c rest ih =>
    rw [hasColB_cons] at h
    rw [setAllCol_cons]
    by_cases hc : c.name == n
    · rw [if_pos hc, getCol_cons]
      simp
    · rw [if_neg hc, getCol_cons, if_neg hc]
      exact ih (by simpa [hc] using h)

theorem getCol_setAllCol_ne (df : DF) (n m : String) (v : List Cell) (h : m ≠ n) :
    getCol (setAllCol df m v) n = getCol df n := by
  induction df with
  | nil => simp [setAllCol, getCol]
  | cons c rest ih =>
    rw [setAllCol_cons]
    by_cases hc : c.name == m
    · rw [if_pos hc, getCol_cons, getCol_cons]
      have hcm : c.name = m := eq_of_beq hc
      have h1 : (m == n) = false := by simpa using h
      have h2 : (c.name == n) = false := by rw [hcm]; exact h1
      simp only [Col.mk.injEq] at *
      rw [h1, h2, if_neg, if_neg, ih] <;> simp
    · rw [if_neg hc, getCol_cons, getCol_cons]
      by_cases hn : c.name == n
      · rw [if_pos hn, if_pos hn]
      · rw [if_neg hn, if_neg hn, ih]

theorem getCol_append_left (df df2 : DF) (n : String) (h : hasColB df n = true) :
    getCol (df ++ df2) n = getCol df n := by
  induction df with
  | nil => simp [hasColB] at h
  | cons c rest ih =>
    rw [hasColB_cons] at h
    rw [List.cons_append, getCol_cons, getCol_cons]
    by_cases hc : c.name == n
    · rw [if_pos hc, if_pos hc]
    · rw [if_neg hc, if_neg hc, ih (by simpa [hc] using h)]

theorem getCol_append_right (df df2 : DF) (n : String) (h : hasColB df n = false) :
    getCol (df ++ df2) n = getCol df2 n := by
  induction df with
  | nil => simp
  | cons c rest ih =>
    rw [hasColB_cons] at h
    have hc : (c.name == n) = false := by cases hx : c.name == n <;> simp_all
    rw [List.cons_append, getCol_cons, if_neg (by simp [hc])]
    exact ih (by simpa [hc] using h)

theorem getCol_setCol_self (df : DF) (n : String) (v : List Cell) :
    getCol (setCol df n v) n = some v := by
  rw [setCol_eq]
  by_cases h : hasColB df n
  · rw [if_pos h, getCol_setAllCol_self df n v h]
  · rw [if_neg h, getCol_append_right df _ n (by simpa using h), getCol_cons]
    simp

theorem getCol_setCol_ne (df : DF) (n m : String) (v : List Cell) (h : m ≠ n) :
    getCol (setCol df m v) n = getCol df n := by
  rw [setCol_eq]
  by_cases hm : hasColB df m
  · rw [if_pos hm, getCol_setAllCol_ne df n m v h]
  · rw [if_neg hm]
    by_cases hn : hasColB df n
    · rw [getCol_append_left df _ n hn]
    · rw [getCol_append_right df _ n (by simpa using hn), getCol_cons,
        if_neg (by simpa using h)]
      rw [← getCol_isSome] at hn
      cases hx : getCol df n with
      | none => simp [getCol]
      | some w => rw [hx] at hn; simp at hn

theorem hasColB_setCol_self (df : DF) (n : String) (v : List Cell) :
    hasColB (setCol df n v) n = true := by
  rw [← getCol_isSome, getCol_setCol_self]
  rfl

theorem hasColB_setCol_ne (df : DF) (n m : String) (v : List Cell) (h : m ≠ n) :
    hasColB (setCol df m v) n = hasColB df n := by
  rw [← getCol_isSome, ← getCol_isSome, getCol_setCol_ne df n m v h]

theorem getCol_renameCol_other (df : DF) (lo hi n : String) (h1 : n ≠ lo) (h2 : n ≠ hi) :
    getCol (renameCol df lo hi) n = getCol df n := by
  induction df with
  | nil => simp [renameCol, getCol]
  | cons c rest ih =>
    rw [renameCol_cons]
    by_cases hc : c.name == lo
    · rw [if_pos hc, getCol_cons, getCol_cons]
      have hcl : c.name = lo := eq_of_beq hc
      have hx : (hi == n) = false := by simpa using (Ne.symm h2)
      have hy : (c.name == n) = false := by rw [hcl]; simpa using (Ne.symm h1)
      rw [if_neg (by simp [hx]), if_neg (by simp [hy]), ih]
    · rw [if_neg hc, getCol_cons, getCol_cons]
      by_cases hn : c.name == n
      · rw [if_pos hn, if_pos hn]
      · rw [if_neg hn, if_neg hn, ih]

theorem hasColB_renameCol_other (df : DF) (lo hi n : String) (h1 : n ≠ lo) (h2 : n ≠ hi) :
    hasColB (renameCol df lo hi) n = hasColB df n := by
  rw [← getCol_isSome, ← getCol_isSome, getCol_renameCol_other df lo hi n h1 h2]

theorem hasColB_renameCol_lo (df : DF) (lo hi : String) (h : lo ≠ hi) :
    hasColB (renameCol df lo hi) lo = false := by
  induction df with
  | nil => simp [renameCol, hasColB]
  | cons c rest ih =>
    rw [renameCol_cons]
    by_cases hc : c.name == lo
    · rw [if_pos hc, hasColB_cons]
      have : (hi == lo) = false := by simpa using (Ne.symm h)
      simp only [this, Bool.false_or]
      exact ih
    · have hc2 : (c.name == lo) = false := by simpa using hc
      rw [if_neg hc, hasColB_cons, hc2]
      simp only [Bool.false_or]
      exact ih

theorem getCol_renameCol_hi (df : DF) (lo hi : String)
    (h : hasColB df hi = false) :
    getCol (renameCol df lo hi) hi = getCol df lo := by
  induction df with
  | nil => simp [renameCol, getCol]
  | cons c rest ih =>
    rw [hasColB_cons] at h
    have hch : (c.name == hi) = false := by cases hx : c.name == hi <;> simp_all
    have hrest : hasColB rest hi = false := by cases hx : hasColB rest hi <;> simp_all
    rw [renameCol_cons]
    by_cases hc : c.name == lo
    · rw [if_pos hc, getCol_cons, getCol_cons, if_pos hc]
      simp
    · rw [if_neg hc, getCol_cons, getCol_cons, if_neg hc, if_neg (by simp [hch]), ih hrest]

/-! ### Step tracking lemmas -/

theorem hasColB_of_getCol_eq (d1 d2 : DF) (n : String)
    (h : getCol d1 n = getCol d2 n) : hasColB d1 n = hasColB d2 n := by
  rw [← getCol_isSome, ← getCol_isSome, h]

theorem getCol_eq_none (df : DF) (n : String) (h : hasColB df n = false) :
    getCol df n = none := by
  have := getCol_isSome df n
  rw [h] at this
  cases hx : getCol df n
  · rfl
  · rw [hx] at this; simp at this

theorem getCol_dateStep_ne (df : DF) (n : String) (h : n ≠ "Date") :
    getCol (dateStep df) n = getCol df n := by
  unfold dateStep
  cases hx : getCol df "Date" with
  | none => rfl
  | some cs => exact getCol_setCol_ne df n "Date" _ (Ne.symm h)

theorem getCol_timeStep_ne (df : DF) (n : String) (h : n ≠ "Hour") :
    getCol (timeStep df) n = getCol df n := by
  unfold timeStep
  cases hx : getCol df "Time" with
  | none => rfl
  | some cs => exact getCol_setCol_ne df n "Hour" _ (Ne.symm h)

theorem getCol_coerceStep1_ne (df : DF) (col n : String) (h : n ≠ col) :
    getCol (coerceStep1 df col) n = getCol df n := by
  unfold coerceStep1
  cases hx : getCol df col with
  | none => rfl
  | some cs => exact getCol_setCol_ne df n col _ (Ne.symm h)

theorem getCol_fillStep1_ne (df : DF) (col n : String) (h : n ≠ col) :
    getCol (fillStep1 df col) n = getCol df n := by
  unfold fillStep1
  cases hx : getCol df col with
  | none => rfl
  | some cs => exact getCol_setCol_ne df n col _ (Ne.symm h)

theorem getCol_foldl_coerce_ne (L : List String) (df : DF) (n : String) (h : n ∉ L) :
    getCol (L.foldl coerceStep1 df) n = getCol df n := by
  induction L generalizing df with
  | nil => rfl
  | cons a t ih =>
    rw [List.foldl_cons, ih _ (fun hm => h (List.mem_cons_of_mem a hm)),
      getCol_coerceStep1_ne df a n (fun he => h (he ▸ List.mem_cons_self a t))]

theorem getCol_foldl_fill_ne (L : List String) (df : DF) (n : String) (h : n ∉ L) :
    getCol (L.foldl fillStep1 df) n = getCol df n := by
  induction L generalizing df with
  | nil => rfl
  | cons a t ih =>
    rw [List.foldl_cons, ih _ (fun hm => h (List.mem_cons_of_mem a hm)),
      getCol_fillStep1_ne df a n (fun he => h (he ▸ List.mem_cons_self a t))]

theorem getCol_numericStep_ne (df : DF) (n : String) (h : n ∉ numericCols) :
    getCol (numericStep df) n = getCol df n :=
  getCol_foldl_coerce_ne numericCols df n h

theorem getCol_medianFillStep_ne (df : DF) (n : String) (h : n ∉ imputeCols) :
    getCol (medianFillStep df) n = getCol df n :=
  getCol_foldl_fill_ne imputeCols df n h

theorem getCol_dateFeaturesStep_ne (df : DF) (n : String)
    (h1 : n ≠ "Day") (h2 : n ≠ "DayOfWeek") (h3 : n ≠ "Month") :
    getCol (dateFeaturesStep df) n = getCol df n := by
  unfold dateFeaturesStep
  cases hx : getCol df "Date" with
  | none => rfl
  | some cs =>
    rw [getCol_setCol_ne _ n "Month" _ (Ne.symm h3),
      getCol_setCol_ne _ n "DayOfWeek" _ (Ne.symm h2),
      getCol_setCol_ne _ n "Day" _ (Ne.symm h1)]

theorem getCol_routeStep_ne (df : DF) (n : String) (h : n ≠ "Route") :
    getCol (routeStep df) n = getCol df n := by
  unfold routeStep
  cases hp : getCol df "Pickup Location" with
  | none => rfl
  | some ps =>
    cases hq : getCol df "Drop Location" with
    | none => rfl
    | some qs => exact getCol_setCol_ne df n "Route" _ (Ne.symm h)

theorem getCol_statusStep_ne (df : DF) (n : String)
    (h1 : n ≠ "Booking Status") (h2 : n ≠ "Is_Completed")
    (h3 : n ≠ "Is_Cancelled") (h4 : n ≠ "Is_Incomplete") :
    getCol (statusStep df) n = getCol df n := by
  unfold statusStep
  cases hx : getCol df "Booking Status" with
  | none => rfl
  | some cs =>
    rw [getCol_setCol_ne _ n "Is_Incomplete" _ (Ne.symm h4),
      getCol_setCol_ne _ n "Is_Cancelled" _ (Ne.symm h3),
      getCol_setCol_ne _ n "Is_Completed" _ (Ne.symm h2),
      getCol_setCol_ne _ n "Booking Status" _ (Ne.symm h1)]

/-! ### What each step writes -/

theorem getCol_dateStep_self (df : DF) (cs : List Cell)
    (h : getCol df "Date" = some cs) :
    getCol (dateStep df) "Date" = some (cs.map toDatetimeCell) := by
  unfold dateStep
  rw [h]
  exact getCol_setCol_self df "Date" _

theorem getCol_timeStep_hour (df : DF) (cs : List Cell)
    (h : getCol df "Time" = some cs) :
    getCol (timeStep df) "Hour" = some (hourColumn cs) := by
  unfold timeStep
  rw [h]
  exact getCol_setCol_self df "Hour" _

theorem getCol_coerceStep1_self (df : DF) (col : String) (cs : List Cell)
    (h : getCol df col = some cs) :
    getCol (coerceStep1 df col) col = some (cs.map toNumericCell) := by
  unfold coerceStep1
  rw [h]
  exact getCol_setCol_self df col _

theorem getCol_fillStep1_self (df : DF) (col : String) (cs : List Cell)
    (h : getCol df col = some cs) :
    getCol (fillStep1 df col) col = some (fillMedianCol cs) := by
  unfold fillStep1
  rw [h]
  exact getCol_setCol_self df col _

theorem getCol_foldl_coerce_mem (L : List String) (df : DF) (col : String)
    (cs : List Cell) (hmem : col ∈ L) (hnd : L.Nodup) (h : getCol df col = some cs) :
    getCol (L.foldl coerceStep1 df) col = some (cs.map toNumericCell) := by
  induction L generalizing df with
  | nil => cases hmem
  | cons a t ih =>
    rw [List.foldl_cons]
    rcases List.mem_cons.mp hmem with rfl | hmt
    · rw [getCol_foldl_coerce_ne t _ col (by simpa using (List.nodup_cons.mp hnd).1)]
      exact getCol_coerceStep1_self df col cs h
    · have hne : col ≠ a := fun he => (List.nodup_cons.mp hnd).1 (he ▸ hmt)
      exact ih _ hmt (List.nodup_cons.mp hnd).2
        (by rw [getCol_coerceStep1_ne df a col hne]; exact h)

theorem getCol_foldl_fill_mem (L : List String) (df : DF) (col : String)
    (cs : List Cell) (hmem : col ∈ L) (hnd : L.Nodup) (h : getCol df col = some cs) :
    getCol (L.foldl fillStep1 df) col = some (fillMedianCol cs) := by
  induction L generalizing df with
  | nil => cases hmem
  | cons a t ih =>
    rw [List.foldl_cons]
    rcases List.mem_cons.mp hmem with rfl | hmt
    · rw [getCol_foldl_fill_ne t _ col (by simpa using (List.nodup_cons.mp hnd).1)]
      exact getCol_fillStep1_self df col cs h
    · have hne : col ≠ a := fun he => (List.nodup_cons.mp hnd).1 (he ▸ hmt)
      exact ih _ hmt (List.nodup_cons.mp hnd).2
        (by rw [getCol_fillStep1_ne df a col hne]; exact h)

/-! ### Column characterization of the whole pipeline -/

/-- The frame after name trimming and alias normalization (pipeline steps
1-2); "present" in the claims is presence in this frame. -/
def normCols (df : DF) : DF := normalizeAliases (trimCols df)

theorem preprocess_eq (df : DF) :
    preprocess df = statusStep (routeStep (dateFeaturesStep (medianFillStep
      (numericStep (timeStep (dateStep (normCols df))))))) := rfl

theorem dateStep_absent (df : DF) (h : getCol df "Date" = none) : dateStep df = df := by
  unfold dateStep
  rw [h]

theorem preprocess_hour (df : DF) (cs : List Cell)
    (h : getCol (normCols df) "Time" = some cs) :
    getCol (preprocess df) "Hour" = some (hourColumn cs) := by
  rw [preprocess_eq,
    getCol_statusStep_ne _ _ (by decide) (by decide) (by decide) (by decide),
    getCol_routeStep_ne _ _ (by decide),
    getCol_dateFeaturesStep_ne _ _ (by decide) (by decide) (by decide),
    getCol_medianFillStep_ne _ _ (by decide),
    getCol_numericStep_ne _ _ (by decide)]
  exact getCol_timeStep_hour _ cs (by rw [getCol_dateStep_ne _ _ (by decide)]; exact h)

theorem preprocess_hour_absent (df : DF)
    (h : hasColB (normCols df) "Time" = false) :
    getCol (preprocess df) "Hour" = getCol (normCols df) "Hour" := by
  rw [preprocess_eq,
    getCol_statusStep_ne _ _ (by decide) (by decide) (by decide) (by decide),
    getCol_routeStep_ne _ _ (by decide),
    getCol_dateFeaturesStep_ne _ _ (by decide) (by decide) (by decide),
    getCol_medianFillStep_ne _ _ (by decide),
    getCol_numericStep_ne _ _ (by decide)]
  have ht : getCol (dateStep (normCols df)) "Time" = none := by
    rw [getCol_dateStep_ne _ _ (by decide)]
    exact getCol_eq_none _ _ h
  unfold timeStep
  rw [ht, getCol_dateStep_ne _ _ (by decide)]

theorem preprocess_date (df : DF) (cs : List Cell)
    (h : getCol (normCols df) "Date" = some cs) :
    getCol (preprocess df) "Date" = some (cs.map toDatetimeCell) := by
  rw [preprocess_eq,
    getCol_statusStep_ne _ _ (by decide) (by decide) (by decide) (by decide),
    getCol_routeStep_ne _ _ (by decide),
    getCol_dateFeaturesStep_ne _ _ (by decide) (by decide) (by decide),
    getCol_medianFillStep_ne _ _ (by decide),
    getCol_numericStep_ne _ _ (by decide),
    getCol_timeStep_ne _ _ (by decide)]
  exact getCol_dateStep_self _ cs h

theorem preprocess_date_absent (df : DF)
    (h : hasColB (normCols df) "Date" = false) :
    (getCol (preprocess df) "Day" = getCol (normCols df) "Day") ∧
    (getCol (preprocess df) "DayOfWeek" = getCol (normCols df) "DayOfWeek") ∧
    (getCol (preprocess df) "Month" = getCol (normCols df) "Month") := by
  have hnone : getCol (medianFillStep (numericStep (timeStep (dateStep
      (normCols df))))) "Date" = none := by
    rw [getCol_medianFillStep_ne _ _ (by decide),
      getCol_numericStep_ne _ _ (by decide),
      getCol_timeStep_ne _ _ (by decide),
      dateStep_absent _ (getCol_eq_none _ _ h)]
    exact getCol_eq_none _ _ h
  have hfeat : dateFeaturesStep (medianFillStep (numericStep (timeStep (dateStep
      (normCols df))))) = medianFillStep (numericStep (timeStep (dateStep
      (normCols df)))) := by
    unfold dateFeaturesStep
    rw [hnone]
  refine ⟨?_, ?_, ?_⟩ <;>
    rw [preprocess_eq,
      getCol_statusStep_ne _ _ (by decide) (by decide) (by decide) (by decide),
      getCol_routeStep_ne _ _ (by decide), hfeat,
      getCol_medianFillStep_ne _ _ (by decide),
      getCol_numericStep_ne _ _ (by decide),
      getCol_timeStep_ne _ _ (by decide),
      getCol_dateStep_ne _ _ (by decide)]

theorem preprocess_status_absent (df : DF)
    (h : hasColB (normCols df) "Booking Status" = false) :
    (getCol (preprocess df) "Is_Completed" = getCol (normCols df) "Is_Completed") ∧
    (getCol (preprocess df) "Is_Cancelled" = getCol (normCols df) "Is_Cancelled") ∧
    (getCol (preprocess df) "Is_Incomplete" = getCol (normCols df) "Is_Incomplete") := by
  have hnone : getCol (routeStep (dateFeaturesStep (medianFillStep (numericStep
      (timeStep (dateStep (normCols df))))))) "Booking Status" = none := by
    rw [getCol_routeStep_ne _ _ (by decide),
      getCol_dateFeaturesStep_ne _ _ (by decide) (by decide) (by decide),
      getCol_medianFillStep_ne _ _ (by decide),
      getCol_numericStep_ne _ _ (by decide),
      getCol_timeStep_ne _ _ (by decide),
      getCol_dateStep_ne _ _ (by decide)]
    exact getCol_eq_none _ _ h
  have hstat : preprocess df = routeStep (dateFeaturesStep (medianFillStep
      (numericStep (timeStep (dateStep (normCols df)))))) := by
    rw [preprocess_eq]
    unfold statusStep
    rw [hnone]
  refine ⟨?_, ?_, ?_⟩ <;>
    rw [hstat, getCol_routeStep_ne _ _ (by decide),
      getCol_dateFeaturesStep_ne _ _ (by decide) (by decide) (by decide),
      getCol_medianFillStep_ne _ _ (by decide),
      getCol_numericStep_ne _ _ (by decide),
      getCol_timeStep_ne _ _ (by decide),
      getCol_dateStep_ne _ _ (by decide)]

theorem numericCols_nodup : numericCols.Nodup := by decide

theorem imputeCols_nodup : imputeCols.Nodup := by decide

theorem preprocess_impute_col (df : DF) (col : String) (cs : List Cell)
    (hcol : col ∈ imputeCols) (h : getCol (normCols df) col = some cs) :
    getCol (preprocess df) col = some (fillMedianCol (cs.map toNumericCell)) := by
  have hn1 : col ≠ "Date" := fun he => absurd (he ▸ hcol) (by decide)
  have hn2 : col ≠ "Hour" := fun he => absurd (he ▸ hcol) (by decide)
  have hn3 : col ≠ "Day" := fun he => absurd (he ▸ hcol) (by decide)
  have hn4 : col ≠ "DayOfWeek" := fun he => absurd (he ▸ hcol) (by decide)
  have hn5 : col ≠ "Month" := fun he => absurd (he ▸ hcol) (by decide)
  have hn6 : col ≠ "Route" := fun he => absurd (he ▸ hcol) (by decide)
  have hn7 : col ≠ "Booking Status" := fun he => absurd (he ▸ hcol) (by decide)
  have hn8 : col ≠ "Is_Completed" := fun he => absurd (he ▸ hcol) (by decide)
  have hn9 : col ≠ "Is_Cancelled" := fun he => absurd (he ▸ hcol) (by decide)
  have hn10 : col ≠ "Is_Incomplete" := fun he => absurd (he ▸ hcol) (by decide)
  have hnum : col ∈ numericCols := by
    revert hcol
    have : ∀ x ∈ imputeCols, x ∈ numericCols := by decide
    exact this col
  rw [preprocess_eq, getCol_statusStep_ne _ _ hn7 hn8 hn9 hn10,
    getCol_routeStep_ne _ _ hn6,
    getCol_dateFeaturesStep_ne _ _ hn3 hn4 hn5]
  have hc : getCol (numericStep (timeStep (dateStep (normCols df)))) col
      = some (cs.map toNumericCell) := by
    apply getCol_foldl_coerce_mem numericCols _ col cs hnum numericCols_nodup
    rw [getCol_timeStep_ne _ _ hn2, getCol_dateStep_ne _ _ hn1]
    exact h
  exact getCol_foldl_fill_mem imputeCols _ col _ hcol imputeCols_nodup hc

theorem preprocess_numeric_col (df : DF) (col : String) (cs : List Cell)
    (hcol : col ∈ numericCols) (himp : col ∉ imputeCols)
    (h : getCol (normCols df) col = some cs) :
    getCol (preprocess df) col = some (cs.map toNumericCell) := by
  have hn1 : col ≠ "Date" := fun he => absurd (he ▸ hcol) (by decide)
  have hn2 : col ≠ "Hour" := fun he => absurd (he ▸ hcol) (by decide)
  have hn3 : col ≠ "Day" := fun he => absurd (he ▸ hcol) (by decide)
  have hn4 : col ≠ "DayOfWeek" := fun he => absurd (he ▸ hcol) (by decide)
  have hn5 : col ≠ "Month" := fun he => absurd (he ▸ hcol) (by decide)
  have hn6 : col ≠ "Route" := fun he => absurd (he ▸ hcol) (by decide)
  have hn7 : col ≠ "Booking Status" := fun he => absurd (he ▸ hcol) (by decide)
  have hn8 : col ≠ "Is_Completed" := fun he => absurd (he ▸ hcol) (by decide)
  have hn9 : col ≠ "Is_Cancelled" := fun he => absurd (he ▸ hcol) (by decide)
  have hn10 : col ≠ "Is_Incomplete" := fun he => absurd (he ▸ hcol) (by decide)
  rw [preprocess_eq, getCol_statusStep_ne _ _ hn7 hn8 hn9 hn10,
    getCol_routeStep_ne _ _ hn6,
    getCol_dateFeaturesStep_ne _ _ hn3 hn4 hn5,
    getCol_medianFillStep_ne _ _ himp]
  apply getCol_foldl_coerce_mem numericCols _ col cs hcol numericCols_nodup
  rw [getCol_timeStep_ne _ _ hn2, getCol_dateStep_ne _ _ hn1]
  exact h

theorem preprocess_date_features (df : DF) (cs : List Cell)
    (h : getCol (normCols df) "Date" = some cs) :
    (getCol (preprocess df) "Day" = some ((cs.map toDatetimeCell).map dayCell)) ∧
    (getCol (preprocess df) "DayOfWeek" = some ((cs.map toDatetimeCell).map dowCell)) ∧
    (getCol (preprocess df) "Month" = some ((cs.map toDatetimeCell).map monthCell)) := by
  have hdc : getCol (medianFillStep (numericStep (timeStep (dateStep
      (normCols df))))) "Date" = some (cs.map toDatetimeCell) := by
    rw [getCol_medianFillStep_ne _ _ (by decide),
      getCol_numericStep_ne _ _ (by decide),
      getCol_timeStep_ne _ _ (by decide)]
    exact getCol_dateStep_self _ cs h
  refine ⟨?_, ?_, ?_⟩ <;>
    rw [preprocess_eq,
      getCol_statusStep_ne _ _ (by decide) (by decide) (by decide) (by decide),
      getCol_routeStep_ne _ _ (by decide)] <;>
    unfold dateFeaturesStep <;> rw [hdc]
  · rw [getCol_setCol_ne _ _ "Month" _ (by decide),
      getCol_setCol_ne _ _ "DayOfWeek" _ (by decide)]
    exact getCol_setCol_self _ "Day" _
  · rw [getCol_setCol_ne _ _ "Month" _ (by decide)]
    exact getCol_setCol_self _ "DayOfWeek" _
  · exact getCol_setCol_self _ "Month" _

theorem preprocess_route (df : DF) (ps qs : List Cell)
    (hp : getCol (normCols df) "Pickup Location" = some ps)
    (hq : getCol (normCols df) "Drop Location" = some qs) :
    getCol (preprocess df) "Route" = some (List.zipWith routeCell ps qs) := by
  have hp' : getCol (dateFeaturesStep (medianFillStep (numericStep (timeStep
      (dateStep (normCols df)))))) "Pickup Location" = some ps := by
    rw [getCol_dateFeaturesStep_ne _ _ (by decide) (by decide) (by decide),
      getCol_medianFillStep_ne _ _ (by decide),
      getCol_numericStep_ne _ _ (by decide),
      getCol_timeStep_ne _ _ (by decide),
      getCol_dateStep_ne _ _ (by decide)]
    exact hp
  have hq' : getCol (dateFeaturesStep (medianFillStep (numericStep (timeStep
      (dateStep (normCols df)))))) "Drop Location" = some qs := by
    rw [getCol_dateFeaturesStep_ne _ _ (by decide) (by decide) (by decide),
      getCol_medianFillStep_ne _ _ (by decide),
      getCol_numericStep_ne _ _ (by decide),
      getCol_timeStep_ne _ _ (by decide),
      getCol_dateStep_ne _ _ (by decide)]
    exact hq
  rw [preprocess_eq,
    getCol_statusStep_ne _ _ (by decide) (by decide) (by decide) (by decide)]
  unfold routeStep
  rw [hp', hq']
  exact getCol_setCol_self _ "Route" _

theorem preprocess_status (df : DF) (cs : List Cell)
    (h : getCol (normCols df) "Booking Status" = some cs) :
    (getCol (preprocess df) "Booking Status" = some (cs.map statusCell)) ∧
    (getCol (preprocess df) "Is_Completed"
      = some ((cs.map statusCell).map (fun c => Cell.bool (c == Cell.str "Completed")))) ∧
    (getCol (preprocess df) "Is_Cancelled"
      = some ((cs.map statusCell).map (fun c => Cell.bool (c == Cell.str "Cancelled")))) ∧
    (getCol (preprocess df) "Is_Incomplete"
      = some ((cs.map statusCell).map (fun c => Cell.bool (c == Cell.str "Incomplete")))) := by
  have hbs : getCol (routeStep (dateFeaturesStep (medianFillStep (numericStep
      (timeStep (dateStep (normCols df))))))) "Booking Status" = some cs := by
    rw [getCol_routeStep_ne _ _ (by decide),
      getCol_dateFeaturesStep_ne _ _ (by decide) (by decide) (by decide),
      getCol_medianFillStep_ne _ _ (by decide),
      getCol_numericStep_ne _ _ (by decide),
      getCol_timeStep_ne _ _ (by decide),
      getCol_dateStep_ne _ _ (by decide)]
    exact h
  refine ⟨?_, ?_, ?_, ?_⟩ <;> rw [preprocess_eq] <;> unfold statusStep <;> rw [hbs]
  · rw [getCol_setCol_ne _ _ "Is_Incomplete" _ (by decide),
      getCol_setCol_ne _ _ "Is_Cancelled" _ (by decide),
      getCol_setCol_ne _ _ "Is_Completed" _ (by decide)]
    exact getCol_setCol_self _ "Booking Status" _
  · rw [getCol_setCol_ne _ _ "Is_Incomplete" _ (by decide),
      getCol_setCol_ne _ _ "Is_Cancelled" _ (by decide)]
    exact getCol_setCol_self _ "Is_Completed" _
  · rw [getCol_setCol_ne _ _ "Is_Incomplete" _ (by decide)]
    exact getCol_setCol_self _ "Is_Cancelled" _
  · exact getCol_setCol_self _ "Is_Incomplete" _

/-! ### Cell-level lemmas -/

theorem extractHourAux_eq_none_iff (l : List Char) :
    extractHourAux l = none ↔ ∀ c ∈ l, isDigitChar c = false := by
  induction l with
  | nil => simp [extractHourAux]
  | cons c rest ih =>
    unfold extractHourAux
    by_cases h : isDigitChar c
    · rw [if_pos h]
      constructor
      · intro hx
        exfalso
        cases rest with
        | nil => simp at hx
        | cons d t => by_cases hd : isDigitChar d <;> simp [hd] at hx
      · intro hall
        exact absurd (hall c (List.mem_cons_self c rest)) (by simp [h])
    · rw [if_neg h, ih]
      constructor
      · intro hall x hx
        rcases List.mem_cons.mp hx with rfl | hm
        · simpa using h
        · exact hall x hm
      · intro hall x hx
        exact hall x (List.mem_cons_of_mem c hx)

theorem digitVal_le (c : Char) (h : isDigitChar c = true) : digitVal c ≤ 9 := by
  unfold isDigitChar at h
  unfold digitVal
  simp only [Bool.and_eq_true, decide_eq_true_eq] at h
  omega

theorem extractHourAux_le (l : List Char) (k : Nat)
    (h : extractHourAux l = some k) : k ≤ 99 := by
  induction l with
  | nil => simp [extractHourAux] at h
  | cons c rest ih =>
    unfold extractHourAux at h
    by_cases hc : isDigitChar c
    · rw [if_pos hc] at h
      have hc9 := digitVal_le c hc
      cases rest with
      | nil =>
        simp only [Option.some.injEq] at h
        omega
      | cons d t =>
        by_cases hd : isDigitChar d
        · have hd9 := digitVal_le d hd
          simp only [hd, if_pos, Option.some.injEq] at h
          omega
        · simp only [hd, Bool.false_eq_true, if_neg, not_false_iff,
            Option.some.injEq] at h
          omega
    · rw [if_neg hc] at h
      exact ih h

theorem parseTimeOfDay_le (l : List Char) (k : Nat)
    (h : parseTimeOfDay l = some k) : k ≤ 23 := by
  unfold parseTimeOfDay at h
  split at h
  next v m1 m2 rest hp =>
    split at h
    next hcond =>
      have hv : v ≤ 23 := by
        simp only [Bool.and_eq_true, decide_eq_true_eq] at hcond
        exact hcond.1.2
      split at h
      · simp only [Option.some.injEq] at h
        exact h ▸ hv
      · split at h
        · simp only [Option.some.injEq] at h
          exact h ▸ hv
        · cases h
      · cases h
    next => cases h
  next => cases h

theorem parseTimeHour_le (c : Cell) (k : Nat)
    (h : parseTimeHour c = some k) : k ≤ 23 := by
  cases c <;> simp [parseTimeHour] at h
  case str s => exact parseTimeOfDay_le _ _ h

theorem hourColumn_cases (cs : List Cell) (c : Cell) (hc : c ∈ hourColumn cs) :
    c = Cell.missing ∨ ∃ k : Nat, c = Cell.num k ∧ k ≤ 99
      ∧ ((cs.map parseTimeHour).any Option.isSome = true → k ≤ 23) := by
  unfold hourColumn at hc
  split at hc
  next hsome =>
    rcases List.mem_map.mp hc with ⟨o, ho, rfl⟩
    rcases List.mem_map.mp ho with ⟨cell, hcell, rfl⟩
    cases hpo : parseTimeHour cell with
    | none => left; rfl
    | some k =>
      right
      have hk := parseTimeHour_le cell k hpo
      exact ⟨k, rfl, le_trans hk (by omega), fun _ => hk⟩
  next hnone =>
    rcases List.mem_map.mp hc with ⟨cell, hcell, rfl⟩
    cases he : extractHour (pyStr cell) with
    | none => left; rfl
    | some k =>
      right
      exact ⟨k, rfl, extractHourAux_le _ k he,
        fun hx => absurd hx hnone⟩

theorem toNumericCell_shape (c : Cell) :
    (∃ q, toNumericCell c = Cell.num q) ∨ toNumericCell c = Cell.missing := by
  cases c with
  | missing => right; rfl
  | str s =>
    simp only [toNumericCell]
    cases hp : parseDecimal (stripList s.data) with
    | none => right; rfl
    | some q => left; exact ⟨q, rfl⟩
  | num q => left; exact ⟨q, rfl⟩
  | date y m d => right; rfl
  | bool b => left; exact ⟨_, rfl⟩

theorem fillNa_count_missing (cs : List Cell) (v : ℚ) :
    (fillNa cs v).count Cell.missing = 0 := by
  rw [List.count_eq_zero]
  intro hmem
  rcases List.mem_map.mp hmem with ⟨c, -, hc⟩
  cases c <;> simp at hc

theorem fillMedianCol_of_median (cs : List Cell) (m : ℚ)
    (h : medianQ (numericVals cs) = some m) : fillMedianCol cs = fillNa cs m := by
  unfold fillMedianCol
  rw [h]

theorem fillMedianCol_of_none (cs : List Cell)
    (h : medianQ (numericVals cs) = none) : fillMedianCol cs = cs := by
  unfold fillMedianCol
  rw [h]

theorem length_insertSorted (x : ℚ) (l : List ℚ) :
    (insertSorted x l).length = l.length + 1 := by
  induction l with
  | nil => rfl
  | cons y ys ih =>
    unfold insertSorted
    by_cases h : x ≤ y
    · rw [if_pos h]; rfl
    · rw [if_neg h]
      simp [ih]

theorem length_sortQ (l : List ℚ) : (sortQ l).length = l.length := by
  induction l with
  | nil => rfl
  | cons x xs ih =>
    unfold sortQ
    rw [length_insertSorted, ih, List.length_cons]

theorem medianQ_isSome (xs : List ℚ) (h : xs ≠ []) : ∃ m, medianQ xs = some m := by
  unfold medianQ
  simp only [length_sortQ]
  have hlen : xs.length ≠ 0 := by
    intro hz
    exact h (List.length_eq_zero.mp hz)
  rw [if_neg hlen]
  by_cases hp : xs.length % 2 = 1
  · rw [if_pos hp]; exact ⟨_, rfl⟩
  · rw [if_neg hp]; exact ⟨_, rfl⟩

theorem numericVals_ne_nil (cs : List Cell) (q : ℚ) (h : Cell.num q ∈ cs) :
    numericVals cs ≠ [] := by
  intro hnil
  unfold numericVals at hnil
  rw [List.filterMap_eq_nil_iff] at hnil
  have := hnil _ h
  simp at this

theorem numericVals_nil_all_missing (cs : List Cell)
    (hshape : ∀ c ∈ cs, (∃ q, c = Cell.num q) ∨ c = Cell.missing)
    (h : numericVals cs = []) : ∀ c ∈ cs, c = Cell.missing := by
  intro c hc
  rcases hshape c hc with ⟨q, rfl⟩ | rfl
  · exfalso
    unfold numericVals at h
    rw [List.filterMap_eq_nil_iff] at h
    have := h _ hc
    simp at this
  · rfl

/-! ### Claim C1 -/

/-- Claim C1: for every row of the two cancellation-by-actor columns, when
present, the boolean-rate computation classifies the cell as NOT cancelled
exactly when its string form, after trimming whitespace and lower-casing, is
one of the literal tokens "0", "0.0", "nan", "none", "" (empty), "false";
every other string form (e.g. "1", "Yes") is classified as cancelled. -/
theorem cancellation_token_heuristic (df : DF) (cs ds : List Cell)
    (hc : getCol df "Cancelled Rides by Customer" = some cs)
    (hd : getCol df "Cancelled Rides by Driver" = some ds) :
    isCancelledCust df = some (cs.map isCancelledCell)
    ∧ isCancelledDrv df = some (ds.map isCancelledCell)
    ∧ (∀ c : Cell, isCancelledCell c = false
        ↔ pyLower (pyStrip (pyStr c)) ∈ cancelTokens)
    ∧ isCancelledCell (Cell.str "1") = true
    ∧ isCancelledCell (Cell.str "Yes") = true := by
  refine ⟨?_, ?_, ?_, by decide, by decide⟩
  · unfold isCancelledCust
    rw [hc]
    rfl
  · unfold isCancelledDrv
    rw [hd]
    rfl
  · intro c
    unfold isCancelledCell notNaCell
    simp [List.elem_iff]

theorem cancellation_token_heuristic_witness :
    isCancelledCust [⟨"Cancelled Rides by Customer", [Cell.str "1", Cell.str " 0.0 "]⟩,
        ⟨"Cancelled Rides by Driver", [Cell.str "Yes"]⟩] = some [true, false]
    ∧ isCancelledCell (Cell.str "Yes") = true := by
  have h := cancellation_token_heuristic
    [⟨"Cancelled Rides by Customer", [Cell.str "1", Cell.str " 0.0 "]⟩,
     ⟨"Cancelled Rides by Driver", [Cell.str "Yes"]⟩]
    [Cell.str "1", Cell.str " 0.0 "] [Cell.str "Yes"] (by decide) (by decide)
  refine ⟨?_, h.2.2.2.2⟩
  rw [h.1]
  decide

/-! ### Claim C2 -/

/-- Claim C2, counterexample: the claim says the fallback extraction yields a
missing Hour for "2pm-ish" ("no leading digit pair before optional colon"),
but the regex search finds the single digit "2" and the pipeline derives
Hour 2. -/
theorem hour_fallback_counterexample :
    getCol (preprocess [⟨"Time", [Cell.str "2pm-ish"]⟩]) "Hour" = some [Cell.num 2]
    ∧ some [Cell.num 2] ≠ some [Cell.missing] := by
  exact ⟨by decide, by decide⟩

/-- Claim C2 (amended): if at least one `Time` value parses as a time, each
row's Hour is that parse's hour (missing where the parse fails); if every
value fails to parse, each row's Hour is the value of the first run of one or
two digits found anywhere in the row's string form (14 for "14:30 IST", 2 for
"2pm-ish"), and is missing exactly when the string form contains no digit. -/
theorem hour_derivation_amended (df : DF) (cs : List Cell)
    (h : getCol (normCols df) "Time" = some cs) :
    ((cs.map parseTimeHour).any Option.isSome = true →
        getCol (preprocess df) "Hour" = some ((cs.map parseTimeHour).map hourCell))
    ∧ ((cs.map parseTimeHour).any Option.isSome = false →
        getCol (preprocess df) "Hour"
          = some (cs.map (fun c => hourCell (extractHour (pyStr c)))))
    ∧ (∀ s : String, extractHour s = none ↔ ∀ ch ∈ s.data, isDigitChar ch = false)
    ∧ parseTimeHour (Cell.str "14:30") = some 14
    ∧ extractHour "14:30 IST" = some 14
    ∧ extractHour "2pm-ish" = some 2 := by
  have hh := preprocess_hour df cs h
  refine ⟨?_, ?_, fun s => extractHourAux_eq_none_iff s.data, by decide, by decide, by decide⟩
  · intro hb
    rw [hh]
    unfold hourColumn
    rw [if_pos hb]
  · intro hb
    rw [hh]
    unfold hourColumn
    rw [if_neg (by rw [hb]; exact Bool.false_ne_true)]

theorem hour_derivation_amended_witness :
    getCol (preprocess [⟨"Time", [Cell.str "14:30 IST", Cell.str "2pm-ish"]⟩]) "Hour"
      = some [Cell.num 14, Cell.num 2] := by
  have h := hour_derivation_amended [⟨"Time", [Cell.str "14:30 IST", Cell.str "2pm-ish"]⟩]
    [Cell.str "14:30 IST", Cell.str "2pm-ish"] (by decide)
  rw [h.2.1 (by decide)]
  decide

/-! ### Claim C3 -/

/-- Claim C3, counterexample: for the Time column ["99:99"] nothing parses as
a time, the fallback extracts 99, and the derived Hour column contains the
non-missing value 99, outside 0-23. -/
theorem hour_range_counterexample :
    getCol (preprocess [⟨"Time", [Cell.str "99:99"]⟩]) "Hour" = some [Cell.num 99]
    ∧ ¬((99 : ℚ) ≤ 23) := by
  exact ⟨by decide, by decide⟩

/-- Claim C3 (amended): every non-missing cell of the derived Hour column is a
natural number at most 99; when at least one Time value parses as a time (the
parse branch) the bound is 23, as the original claim states. -/
theorem hour_range_amended (df : DF) (cs out : List Cell)
    (h : getCol (normCols df) "Time" = some cs)
    (hout : getCol (preprocess df) "Hour" = some out) :
    ∀ c ∈ out, c = Cell.missing ∨ ∃ k : Nat, c = Cell.num k ∧ k ≤ 99
      ∧ ((cs.map parseTimeHour).any Option.isSome = true → k ≤ 23) := by
  have hh := preprocess_hour df cs h
  rw [hout] at hh
  have : out = hourColumn cs := by
    injection hh
  subst this
  exact fun c hc => hourColumn_cases cs c hc

theorem hour_range_amended_witness :
    Cell.num (99 : ℚ) = Cell.missing
    ∨ ∃ k : Nat, Cell.num (99 : ℚ) = Cell.num k ∧ k ≤ 99
        ∧ (([Cell.str "99:99"].map parseTimeHour).any Option.isSome = true → k ≤ 23) := by
  exact hour_range_amended [⟨"Time", [Cell.str "99:99"]⟩] [Cell.str "99:99"]
    [Cell.num 99] (by decide) (by decide) (Cell.num 99) (by decide)

/-! ### Claim C4 -/

/-- Claim C4: for each present column of the fixed imputation subset, every
cell that is missing after numeric coercion is replaced by the median of the
column's non-missing coerced values, and every non-missing cell is kept. -/
theorem median_imputation (df : DF) (col : String) (cs : List Cell) (m : ℚ)
    (hcol : col ∈ imputeCols)
    (h : getCol (normCols df) col = some cs)
    (hm : medianQ (numericVals (cs.map toNumericCell)) = some m) :
    getCol (preprocess df) col = some (fillNa (cs.map toNumericCell) m)
    ∧ (∀ (ds : List Cell) (i : Nat),
        (ds[i]? = some Cell.missing → (fillNa ds m)[i]? = some (Cell.num m))
        ∧ (∀ c, ds[i]? = some c → c ≠ Cell.missing → (fillNa ds m)[i]? = some c)) := by
  constructor
  · rw [preprocess_impute_col df col cs hcol h,
      fillMedianCol_of_median _ m hm]
  · intro ds i
    constructor
    · intro hi
      unfold fillNa
      rw [List.getElem?_map, hi]
      rfl
    · intro c hi hne
      unfold fillNa
      rw [List.getElem?_map, hi]
      cases c <;> simp_all

theorem median_imputation_witness :
    getCol (preprocess [⟨"Driver Ratings",
        [Cell.num 10, Cell.num 20, Cell.missing, Cell.num 40]⟩]) "Driver Ratings"
      = some [Cell.num 10, Cell.num 20, Cell.num 20, Cell.num 40] := by
  have h := median_imputation [⟨"Driver Ratings",
      [Cell.num 10, Cell.num 20, Cell.missing, Cell.num 40]⟩] "Driver Ratings"
    [Cell.num 10, Cell.num 20, Cell.missing, Cell.num 40] 20
    (by decide) (by decide) (by decide)
  rw [h.1]
  decide

/-! ### Claim C5 -/

/-- Claim C5: the pipeline is total, and a derivation whose sole source column
is absent (after name normalization) is skipped: with no Time column the Hour
column is untouched, with no Date column the Day, DayOfWeek and Month columns
are untouched, with no Booking Status column the three flag columns are
untouched. -/
theorem missing_columns_skipped (df : DF) :
    (hasColB (normCols df) "Time" = false →
        getCol (preprocess df) "Hour" = getCol (normCols df) "Hour")
    ∧ (hasColB (normCols df) "Date" = false →
        getCol (preprocess df) "Day" = getCol (normCols df) "Day"
        ∧ getCol (preprocess df) "DayOfWeek" = getCol (normCols df) "DayOfWeek"
        ∧ getCol (preprocess df) "Month" = getCol (normCols df) "Month")
    ∧ (hasColB (normCols df) "Booking Status" = false →
        getCol (preprocess df) "Is_Completed" = getCol (normCols df) "Is_Completed"
        ∧ getCol (preprocess df) "Is_Cancelled" = getCol (normCols df) "Is_Cancelled"
        ∧ getCol (preprocess df) "Is_Incomplete" = getCol (normCols df) "Is_Incomplete") :=
  ⟨fun h => preprocess_hour_absent df h,
   fun h => preprocess_date_absent df h,
   fun h => preprocess_status_absent df h⟩

theorem missing_columns_skipped_witness :
    getCol (preprocess [⟨"X", [Cell.num 1]⟩]) "Hour" = none
    ∧ getCol (preprocess [⟨"X", [Cell.num 1]⟩]) "Day" = none
    ∧ getCol (preprocess [⟨"X", [Cell.num 1]⟩]) "Is_Cancelled" = none := by
  have h := missing_columns_skipped [⟨"X", [Cell.num 1]⟩]
  refine ⟨?_, ?_, ?_⟩
  · rw [h.1 (by decide)]
    decide
  · rw [(h.2.1 (by decide)).1]
    decide
  · rw [(h.2.2 (by decide)).2.1]
    decide

/-! ### Claim C10 -/

/-- Claim C10: the missing-value report is taken after imputation, so a
present imputation-list column with at least one coercible value reports 0
missing cells no matter how many input cells were missing; when no value
coerces, the whole column stays missing. -/
theorem missing_report_after_imputation (df : DF) (col : String) (cs : List Cell)
    (hcol : col ∈ imputeCols)
    (h : getCol (normCols df) col = some cs) :
    ∃ out, getCol (preprocess df) col = some out
      ∧ (numericVals (cs.map toNumericCell) ≠ [] → missingCount out = 0)
      ∧ (numericVals (cs.map toNumericCell) = [] →
          (∀ c ∈ out, c = Cell.missing) ∧ missingCount out = out.length) := by
  refine ⟨fillMedianCol (cs.map toNumericCell),
    preprocess_impute_col df col cs hcol h, ?_, ?_⟩
  · intro hne
    obtain ⟨m, hm⟩ := medianQ_isSome _ hne
    rw [fillMedianCol_of_median _ m hm]
    exact fillNa_count_missing _ m
  · intro hnil
    have hmed : medianQ (numericVals (cs.map toNumericCell)) = none := by
      rw [hnil]
      rfl
    rw [fillMedianCol_of_none _ hmed]
    have hall : ∀ c ∈ cs.map toNumericCell, c = Cell.missing := by
      apply numericVals_nil_all_missing _ _ hnil
      intro c hcmem
      rcases List.mem_map.mp hcmem with ⟨c0, -, rfl⟩
      rcases toNumericCell_shape c0 with ⟨q, hq⟩ | hq
      · exact Or.inl ⟨q, hq⟩
      · exact Or.inr hq
    refine ⟨hall, ?_⟩
    unfold missingCount
    rw [List.count_eq_length]
    intro b hb
    exact (hall b hb).symm

theorem missing_report_after_imputation_witness :
    ∃ out, getCol (preprocess [⟨"Customer Rating",
        [Cell.missing, Cell.str "abc", Cell.str "4.5"]⟩]) "Customer Rating" = some out
      ∧ missingCount out = 0 := by
  obtain ⟨out, ho, h1, -⟩ := missing_report_after_imputation
    [⟨"Customer Rating", [Cell.missing, Cell.str "abc", Cell.str "4.5"]⟩]
    "Customer Rating" [Cell.missing, Cell.str "abc", Cell.str "4.5"]
    (by decide) (by decide)
  exact ⟨out, ho, h1 (by decide)⟩

/-! ### Claim C7 -/

theorem hasColB_routeStep (df : DF) :
    hasColB (routeStep df) "Route"
      = (hasColB df "Route"
          || (hasColB df "Pickup Location" && hasColB df "Drop Location")) := by
  unfold routeStep
  have hp' := getCol_isSome df "Pickup Location"
  have hq' := getCol_isSome df "Drop Location"
  cases hp : getCol df "Pickup Location" with
  | none =>
    rw [hp] at hp'
    simp [← hp']
  | some ps =>
    rw [hp] at hp'
    cases hq : getCol df "Drop Location" with
    | none =>
      rw [hq] at hq'
      simp [← hp', ← hq']
    | some qs =>
      rw [hq] at hq'
      rw [hasColB_setCol_self]
      simp [← hp', ← hq']

theorem preprocess_route_presence (df : DF) :
    hasColB (preprocess df) "Route"
      = (hasColB (normCols df) "Route"
          || (hasColB (normCols df) "Pickup Location"
              && hasColB (normCols df) "Drop Location")) := by
  rw [preprocess_eq]
  rw [hasColB_of_getCol_eq _ _ "Route"
    (getCol_statusStep_ne _ _ (by decide) (by decide) (by decide) (by decide))]
  rw [hasColB_routeStep]
  have e1 : ∀ n, n = "Route" ∨ n = "Pickup Location" ∨ n = "Drop Location" →
      hasColB (dateFeaturesStep (medianFillStep (numericStep (timeStep (dateStep
        (normCols df)))))) n = hasColB (normCols df) n := by
    intro n hn
    have d1 : n ≠ "Day" := by rcases hn with rfl | rfl | rfl <;> decide
    have d2 : n ≠ "DayOfWeek" := by rcases hn with rfl | rfl | rfl <;> decide
    have d3 : n ≠ "Month" := by rcases hn with rfl | rfl | rfl <;> decide
    have d4 : n ∉ imputeCols := by rcases hn with rfl | rfl | rfl <;> decide
    have d5 : n ∉ numericCols := by rcases hn with rfl | rfl | rfl <;> decide
    have d6 : n ≠ "Hour" := by rcases hn with rfl | rfl | rfl <;> decide
    have d7 : n ≠ "Date" := by rcases hn with rfl | rfl | rfl <;> decide
    apply hasColB_of_getCol_eq
    rw [getCol_dateFeaturesStep_ne _ _ d1 d2 d3, getCol_medianFillStep_ne _ _ d4,
      getCol_numericStep_ne _ _ d5, getCol_timeStep_ne _ _ d6,
      getCol_dateStep_ne _ _ d7]
  rw [e1 "Route" (Or.inl rfl), e1 "Pickup Location" (Or.inr (Or.inl rfl)),
    e1 "Drop Location" (Or.inr (Or.inr rfl))]

/-- Claim C7: when the input (after name normalization) has no Route column of
its own, the Route column exists in the output exactly when both location
columns are present; its rows concatenate pickup and drop with " → ", and a
missing endpoint becomes the literal "Unknown". -/
theorem route_derivation (df : DF)
    (hnew : hasColB (normCols df) "Route" = false) :
    (hasColB (preprocess df) "Route"
        = (hasColB (normCols df) "Pickup Location"
            && hasColB (normCols df) "Drop Location"))
    ∧ (∀ ps qs, getCol (normCols df) "Pickup Location" = some ps →
        getCol (normCols df) "Drop Location" = some qs →
        getCol (preprocess df) "Route" = some (List.zipWith routeCell ps qs))
    ∧ (∀ s t, routeCell (Cell.str s) (Cell.str t) = Cell.str (s ++ " → " ++ t))
    ∧ (∀ s, routeCell (Cell.str s) Cell.missing = Cell.str (s ++ " → " ++ "Unknown"))
    ∧ (∀ t, routeCell Cell.missing (Cell.str t) = Cell.str ("Unknown" ++ " → " ++ t))
    ∧ routeCell Cell.missing Cell.missing = Cell.str ("Unknown" ++ " → " ++ "Unknown") := by
  refine ⟨?_, ?_, fun s t => rfl, fun s => rfl, fun t => rfl, rfl⟩
  · rw [preprocess_route_presence, hnew, Bool.false_or]
  · intro ps qs hp hq
    exact preprocess_route df ps qs hp hq

theorem route_derivation_witness :
    getCol (preprocess [⟨"Pickup Location", [Cell.str "A"]⟩,
        ⟨"Drop Location", [Cell.missing]⟩]) "Route"
      = some [Cell.str "A → Unknown"] := by
  have h := route_derivation [⟨"Pickup Location", [Cell.str "A"]⟩,
    ⟨"Drop Location", [Cell.missing]⟩] (by decide)
  rw [h.2.1 [Cell.str "A"] [Cell.missing] (by decide) (by decide)]
  decide

/-! ### Claim C9 -/

theorem getCol_aliasStep_other (df : DF) (lo hi n : String)
    (h1 : n ≠ lo) (h2 : n ≠ hi) :
    getCol (aliasStep df lo hi) n = getCol df n := by
  unfold aliasStep
  split
  · exact getCol_renameCol_other df lo hi n h1 h2
  · rfl

theorem hasColB_aliasStep_other (df : DF) (lo hi n : String)
    (h1 : n ≠ lo) (h2 : n ≠ hi) :
    hasColB (aliasStep df lo hi) n = hasColB df n :=
  hasColB_of_getCol_eq _ _ _ (getCol_aliasStep_other df lo hi n h1 h2)

theorem aliasStep_of_hi (df : DF) (lo hi : String) (h : hasColB df hi = true) :
    aliasStep df lo hi = df := by
  unfold aliasStep
  rw [h]
  simp

theorem getCol_aliasStep_hi (df : DF) (lo hi : String)
    (hlo : hasColB df lo = true) (hhi : hasColB df hi = false) :
    getCol (aliasStep df lo hi) hi = getCol df lo := by
  unfold aliasStep
  rw [hlo, hhi]
  simp only [Bool.not_false, Bool.and_true, if_pos]
  exact getCol_renameCol_hi df lo hi hhi

theorem hasColB_aliasStep_lo (df : DF) (lo hi : String)
    (hlo : hasColB df lo = true) (hhi : hasColB df hi = false) (hne : lo ≠ hi) :
    hasColB (aliasStep df lo hi) lo = false := by
  unfold aliasStep
  rw [hlo, hhi]
  simp only [Bool.not_false, Bool.and_true, if_pos]
  exact hasColB_renameCol_lo df lo hi hne

/-- Claim C9: each alias pair renames the lower-case column to the canonical
name only when the canonical name is not already a column; when the canonical
column already exists, both columns keep their names and contents. -/
theorem alias_no_overwrite (df : DF) (lo hi : String) (hp : (lo, hi) ∈ aliasPairs) :
    (hasColB df hi = true →
        getCol (normalizeAliases df) hi = getCol df hi
        ∧ getCol (normalizeAliases df) lo = getCol df lo)
    ∧ (hasColB df lo = true → hasColB df hi = false →
        getCol (normalizeAliases df) hi = getCol df lo
        ∧ hasColB (normalizeAliases df) lo = false) := by
  have hp' : (lo, hi) = ("date", "Date") ∨ (lo, hi) = ("time", "Time")
      ∨ (lo, hi) = ("booking value", "Booking Value") := by
    simpa [aliasPairs] using hp
  unfold normalizeAliases
  rcases hp' with h | h | h <;>
      obtain ⟨rfl, rfl⟩ := Prod.mk.injEq .. ▸ h <;> clear h hp
  · constructor
    · intro hhi
      rw [getCol_aliasStep_other _ _ _ "Date" (by decide) (by decide),
        getCol_aliasStep_other _ _ _ "Date" (by decide) (by decide),
        getCol_aliasStep_other _ _ _ "date" (by decide) (by decide),
        getCol_aliasStep_other _ _ _ "date" (by decide) (by decide),
        aliasStep_of_hi df "date" "Date" hhi]
      exact ⟨rfl, rfl⟩
    · intro hlo hhi
      rw [getCol_aliasStep_other _ _ _ "Date" (by decide) (by decide),
        getCol_aliasStep_other _ _ _ "Date" (by decide) (by decide),
        hasColB_aliasStep_other _ _ _ "date" (by decide) (by decide),
        hasColB_aliasStep_other _ _ _ "date" (by decide) (by decide)]
      exact ⟨getCol_aliasStep_hi df "date" "Date" hlo hhi,
        hasColB_aliasStep_lo df "date" "Date" hlo hhi (by decide)⟩
  · constructor
    · intro hhi
      rw [getCol_aliasStep_other _ _ _ "Time" (by decide) (by decide),
        getCol_aliasStep_other _ _ _ "time" (by decide) (by decide),
        aliasStep_of_hi _ "time" "Time"
          (by rw [hasColB_aliasStep_other _ _ _ "Time" (by decide) (by decide)]; exact hhi),
        getCol_aliasStep_other _ _ _ "Time" (by decide) (by decide),
        getCol_aliasStep_other _ _ _ "time" (by decide) (by decide)]
      exact ⟨rfl, rfl⟩
    · intro hlo hhi
      have hlo1 : hasColB (aliasStep df "date" "Date") "time" = true := by
        rw [hasColB_aliasStep_other _ _ _ "time" (by decide) (by decide)]
        exact hlo
      have hhi1 : hasColB (aliasStep df "date" "Date") "Time" = false := by
        rw [hasColB_aliasStep_other _ _ _ "Time" (by decide) (by decide)]
        exact hhi
      rw [getCol_aliasStep_other _ _ _ "Time" (by decide) (by decide),
        hasColB_aliasStep_other _ _ _ "time" (by decide) (by decide)]
      constructor
      · rw [getCol_aliasStep_hi _ "time" "Time" hlo1 hhi1,
          getCol_aliasStep_other _ _ _ "time" (by decide) (by decide)]
      · exact hasColB_aliasStep_lo _ "time" "Time" hlo1 hhi1 (by decide)
  · constructor
    · intro hhi
      rw [aliasStep_of_hi _ "booking value" "Booking Value"
          (by rw [hasColB_aliasStep_other _ _ _ "Booking Value" (by decide) (by decide),
                hasColB_aliasStep_other _ _ _ "Booking Value" (by decide) (by decide)];
              exact hhi),
        getCol_aliasStep_other _ _ _ "Booking Value" (by decide) (by decide),
        getCol_aliasStep_other _ _ _ "Booking Value" (by decide) (by decide),
        getCol_aliasStep_other _ _ _ "booking value" (by decide) (by decide),
        getCol_aliasStep_other _ _ _ "booking value" (by decide) (by decide)]
      exact ⟨rfl, rfl⟩
    · intro hlo hhi
      have hlo1 : hasColB (aliasStep (aliasStep df "date" "Date") "time" "Time")
          "booking value" = true := by
        rw [hasColB_aliasStep_other _ _ _ "booking value" (by decide) (by decide),
          hasColB_aliasStep_other _ _ _ "booking value" (by decide) (by decide)]
        exact hlo
      have hhi1 : hasColB (aliasStep (aliasStep df "date" "Date") "time" "Time")
          "Booking Value" = false := by
        rw [hasColB_aliasStep_other _ _ _ "Booking Value" (by decide) (by decide),
          hasColB_aliasStep_other _ _ _ "Booking Value" (by decide) (by decide)]
        exact hhi
      constructor
      · rw [getCol_aliasStep_hi _ "booking value" "Booking Value" hlo1 hhi1,
          getCol_aliasStep_other _ _ _ "booking value" (by decide) (by decide),
          getCol_aliasStep_other _ _ _ "booking value" (by decide) (by decide)]
      · exact hasColB_aliasStep_lo _ "booking value" "Booking Value" hlo1 hhi1 (by decide)

theorem alias_no_overwrite_witness :
    getCol (normalizeAliases [⟨"date", [Cell.str "d1"]⟩]) "Date" = some [Cell.str "d1"]
    ∧ getCol (normalizeAliases [⟨"date", [Cell.str "d1"]⟩, ⟨"Date", [Cell.str "d2"]⟩])
        "Date" = some [Cell.str "d2"]
    ∧ getCol (normalizeAliases [⟨"date", [Cell.str "d1"]⟩, ⟨"Date", [Cell.str "d2"]⟩])
        "date" = some [Cell.str "d1"] := by
  refine ⟨?_, ?_, ?_⟩
  · rw [((alias_no_overwrite [⟨"date", [Cell.str "d1"]⟩] "date" "Date"
      (by decide)).2 (by decide) (by decide)).1]
    decide
  · rw [((alias_no_overwrite [⟨"date", [Cell.str "d1"]⟩, ⟨"Date", [Cell.str "d2"]⟩]
      "date" "Date" (by decide)).1 (by decide)).1]
    decide
  · rw [((alias_no_overwrite [⟨"date", [Cell.str "d1"]⟩, ⟨"Date", [Cell.str "d2"]⟩]
      "date" "Date" (by decide)).1 (by decide)).2]
    decide

/-! ### Character lemmas -/

theorem char_toNat_inj (c d : Char) (h : c.toNat = d.toNat) : c = d :=
  Char.ext (UInt32.ext h)

theorem char_toNat_ofNat (n : Nat) (h : Nat.isValidChar n) :
    (Char.ofNat n).toNat = n := by
  unfold Char.ofNat
  rw [dif_pos h]
  unfold Char.ofNatAux Char.toNat UInt32.toNat
  simp

theorem lowerChar_toNat (c : Char) :
    (lowerChar c).toNat
      = if 65 ≤ c.toNat ∧ c.toNat ≤ 90 then c.toNat + 32 else c.toNat := by
  unfold lowerChar
  by_cases h : 65 ≤ c.toNat ∧ c.toNat ≤ 90
  · rw [if_pos (by simp [decide_eq_true_eq, h.1, h.2]), if_pos h]
    exact char_toNat_ofNat _ (Or.inl (by omega))
  · rw [if_neg (by simpa [Bool.and_eq_true, decide_eq_true_eq] using h), if_neg h]

theorem upperChar_toNat (c : Char) :
    (upperChar c).toNat
      = if 97 ≤ c.toNat ∧ c.toNat ≤ 122 then c.toNat - 32 else c.toNat := by
  unfold upperChar
  by_cases h : 97 ≤ c.toNat ∧ c.toNat ≤ 122
  · rw [if_pos (by simp [decide_eq_true_eq, h.1, h.2]), if_pos h]
    exact char_toNat_ofNat _ (Or.inl (by omega))
  · rw [if_neg (by simpa [Bool.and_eq_true, decide_eq_true_eq] using h), if_neg h]

theorem isAlphaChar_iff (c : Char) :
    isAlphaChar c = true
      ↔ (65 ≤ c.toNat ∧ c.toNat ≤ 90) ∨ (97 ≤ c.toNat ∧ c.toNat ≤ 122) := by
  unfold isAlphaChar
  simp [Bool.and_eq_true, Bool.or_eq_true, decide_eq_true_eq]

theorem lowerChar_lowerChar (c : Char) : lowerChar (lowerChar c) = lowerChar c := by
  apply char_toNat_inj
  rw [lowerChar_toNat, lowerChar_toNat]
  split_ifs <;> omega

theorem upperChar_upperChar (c : Char) : upperChar (upperChar c) = upperChar c := by
  apply char_toNat_inj
  rw [upperChar_toNat, upperChar_toNat]
  split_ifs <;> omega

theorem isAlphaChar_lowerChar (c : Char) : isAlphaChar (lowerChar c) = isAlphaChar c := by
  rw [Bool.eq_iff_iff, isAlphaChar_iff, isAlphaChar_iff, lowerChar_toNat]
  by_cases hc : 65 ≤ c.toNat ∧ c.toNat ≤ 90
  · rw [if_pos hc]
    omega
  · rw [if_neg hc]

theorem isAlphaChar_upperChar (c : Char) : isAlphaChar (upperChar c) = isAlphaChar c := by
  rw [Bool.eq_iff_iff, isAlphaChar_iff, isAlphaChar_iff, upperChar_toNat]
  by_cases hc : 97 ≤ c.toNat ∧ c.toNat ≤ 122
  · rw [if_pos hc]
    omega
  · rw [if_neg hc]

theorem upperChar_congr_lower (c d : Char) (h : lowerChar c = lowerChar d) :
    upperChar c = upperChar d := by
  have htn : (lowerChar c).toNat = (lowerChar d).toNat := by rw [h]
  rw [lowerChar_toNat, lowerChar_toNat] at htn
  apply char_toNat_inj
  rw [upperChar_toNat, upperChar_toNat]
  split_ifs at htn ⊢ <;> omega

theorem isAlphaChar_congr_lower (c d : Char) (h : lowerChar c = lowerChar d) :
    isAlphaChar c = isAlphaChar d := by
  have htn : (lowerChar c).toNat = (lowerChar d).toNat := by rw [h]
  rw [lowerChar_toNat, lowerChar_toNat] at htn
  rw [Bool.eq_iff_iff, isAlphaChar_iff, isAlphaChar_iff]
  split_ifs at htn <;> omega

theorem lowerChar_of_not_alpha (c : Char) (h : isAlphaChar c = false) :
    lowerChar c = c := by
  apply char_toNat_inj
  rw [lowerChar_toNat]
  have : ¬((65 ≤ c.toNat ∧ c.toNat ≤ 90) ∨ (97 ≤ c.toNat ∧ c.toNat ≤ 122)) := by
    intro hx
    rw [← isAlphaChar_iff] at hx
    rw [h] at hx
    cases hx
  rw [if_neg (by omega)]

/-! ### Title-casing lemmas -/

theorem titleAux_congr_lower (l1 : List Char) (l2 : List Char) (b : Bool)
    (h : l1.map lowerChar = l2.map lowerChar) : titleAux b l1 = titleAux b l2 := by
  induction l1 generalizing l2 b with
  | nil =>
    cases l2 with
    | nil => rfl
    | cons d t => simp at h
  | cons c t ih =>
    cases l2 with
    | nil => simp at h
    | cons d t2 =>
      simp only [List.map_cons, List.cons.injEq] at h
      obtain ⟨hcd, ht⟩ := h
      have ha := isAlphaChar_congr_lower c d hcd
      unfold titleAux
      rw [ha]
      congr 1
      · by_cases hal : isAlphaChar d = true
        · rw [if_pos hal, if_pos hal]
          cases b with
          | true => simpa using hcd
          | false => simpa using upperChar_congr_lower c d hcd
        · have hal' : isAlphaChar d = false := by
            cases hx : isAlphaChar d
            · rfl
            · exact absurd hx hal
          rw [if_neg hal, if_neg hal]
          rw [lowerChar_of_not_alpha c (ha.trans hal'), lowerChar_of_not_alpha d hal'] at hcd
          exact hcd
      · exact ih t2 (isAlphaChar d) ht

theorem pyTitle_pyLower (s : String) : pyTitle (pyLower s) = pyTitle s := by
  unfold pyTitle pyLower
  congr 1
  apply titleAux_congr_lower
  show (s.data.map lowerChar).map lowerChar = s.data.map lowerChar
  rw [List.map_map]
  exact List.map_congr_left (fun c _ => lowerChar_lowerChar c)

theorem pyTitle_of_lower_canceled (s : String) (h : pyLower s = "canceled") :
    pyTitle s = "Canceled" := by
  rw [← pyTitle_pyLower, h]
  decide

theorem titleAux_cons (b : Bool) (c : Char) (t : List Char) :
    titleAux b (c :: t)
      = (if isAlphaChar c then (if b then lowerChar c else upperChar c) else c)
        :: titleAux (isAlphaChar c) t := rfl

theorem titleAux_idem (l : List Char) (b : Bool) :
    titleAux b (titleAux b l) = titleAux b l := by
  induction l generalizing b with
  | nil => rfl
  | cons c t ih =>
    rw [titleAux_cons b c t]
    by_cases hal : isAlphaChar c = true
    · rw [if_pos hal, hal]
      cases b with
      | true =>
        rw [titleAux_cons]
        simp only [eq_self_iff_true, if_true, isAlphaChar_lowerChar, hal,
          lowerChar_lowerChar, ih true]
      | false =>
        rw [titleAux_cons]
        simp only [Bool.false_eq_true, if_false, eq_self_iff_true, if_true,
          isAlphaChar_upperChar, hal, upperChar_upperChar, ih true]
    · rw [if_neg hal, titleAux_cons, if_neg hal, ih (isAlphaChar c)]

theorem pyTitle_idem (s : String) : pyTitle (pyTitle s) = pyTitle s := by
  unfold pyTitle
  congr 1
  exact titleAux_idem s.data false

theorem normStatusStr_idem (s : String) :
    normStatusStr (normStatusStr s) = normStatusStr s := by
  unfold normStatusStr
  by_cases h : pyTitle s = "Canceled"
  · rw [if_pos h]
    decide
  · rw [if_neg h, pyTitle_idem, if_neg h]

/-! ### Claim C8 -/

/-- Claim C8: when a Booking Status column is present, every value is
title-cased with "Canceled" unified to "Cancelled"; the three flags are
derived by exact match against "Completed", "Cancelled", "Incomplete", so at
most one flag is true per row; any casing of "canceled" normalizes to
"Cancelled", making Is_Cancelled true and the other two flags false. -/
theorem status_normalization (df : DF) (cs : List Cell)
    (h : getCol (normCols df) "Booking Status" = some cs) :
    (getCol (preprocess df) "Booking Status" = some (cs.map statusCell))
    ∧ (getCol (preprocess df) "Is_Completed"
        = some ((cs.map statusCell).map (fun c => Cell.bool (c == Cell.str "Completed"))))
    ∧ (getCol (preprocess df) "Is_Cancelled"
        = some ((cs.map statusCell).map (fun c => Cell.bool (c == Cell.str "Cancelled"))))
    ∧ (getCol (preprocess df) "Is_Incomplete"
        = some ((cs.map statusCell).map (fun c => Cell.bool (c == Cell.str "Incomplete"))))
    ∧ (∀ c : Cell, statusCell c = Cell.str (normStatusStr (pyStr c)))
    ∧ (∀ s : String, pyLower s = "canceled" → normStatusStr s = "Cancelled")
    ∧ (∀ c : Cell, ¬((statusCell c == Cell.str "Completed") = true
          ∧ (statusCell c == Cell.str "Cancelled") = true)
        ∧ ¬((statusCell c == Cell.str "Completed") = true
          ∧ (statusCell c == Cell.str "Incomplete") = true)
        ∧ ¬((statusCell c == Cell.str "Cancelled") = true
          ∧ (statusCell c == Cell.str "Incomplete") = true)) := by
  obtain ⟨h1, h2, h3, h4⟩ := preprocess_status df cs h
  refine ⟨h1, h2, h3, h4, fun c => rfl, ?_, ?_⟩
  · intro s hs
    unfold normStatusStr
    rw [if_pos (pyTitle_of_lower_canceled s hs)]
  · intro c
    refine ⟨?_, ?_, ?_⟩ <;>
      rintro ⟨ha, hb⟩ <;>
      rw [beq_iff_eq] at ha hb <;>
      rw [ha] at hb <;>
      exact absurd hb (by decide)

theorem status_normalization_witness :
    getCol (preprocess [⟨"Booking Status", [Cell.str "CANCELED"]⟩]) "Is_Cancelled"
      = some [Cell.bool true]
    ∧ getCol (preprocess [⟨"Booking Status", [Cell.str "CANCELED"]⟩]) "Is_Completed"
      = some [Cell.bool false]
    ∧ getCol (preprocess [⟨"Booking Status", [Cell.str "CANCELED"]⟩]) "Is_Incomplete"
      = some [Cell.bool false]
    ∧ getCol (preprocess [⟨"Booking Status", [Cell.str "CANCELED"]⟩]) "Booking Status"
      = some [Cell.str "Cancelled"] := by
  have h := status_normalization [⟨"Booking Status", [Cell.str "CANCELED"]⟩]
    [Cell.str "CANCELED"] (by decide)
  refine ⟨?_, ?_, ?_, ?_⟩
  · rw [h.2.2.1]
    decide
  · rw [h.2.1]
    decide
  · rw [h.2.2.2.1]
    decide
  · rw [h.1]
    decide

/-! ### Strip idempotence and trimmed names -/

theorem head_dropWhile_not (p : Char → Bool) (l : List Char) (x : Char)
    (h : (l.dropWhile p).head? = some x) : p x = false := by
  induction l with
  | nil => simp [List.dropWhile] at h
  | cons c t ih =>
    rw [List.dropWhile_cons] at h
    by_cases hc : p c
    · rw [if_pos hc] at h
      exact ih h
    · rw [if_neg hc] at h
      simp only [List.head?_cons, Option.some.injEq] at h
      rw [← h]
      cases hxx : p c
      · rfl
      · exact absurd hxx hc

theorem dropWhile_of_head_not (p : Char → Bool) (l : List Char)
    (h : ∀ x, l.head? = some x → p x = false) : l.dropWhile p = l := by
  cases l with
  | nil => rfl
  | cons c t =>
    rw [List.dropWhile_cons, if_neg (by rw [h c rfl]; exact Bool.false_ne_true)]

theorem stripList_idem (l : List Char) : stripList (stripList l) = stripList l := by
  have hA : ∀ x, (l.dropWhile isSpaceChar).head? = some x → isSpaceChar x = false :=
    head_dropWhile_not isSpaceChar l
  have hX : ∀ x, ((l.dropWhile isSpaceChar).reverse.dropWhile isSpaceChar).head? = some x →
      isSpaceChar x = false :=
    head_dropWhile_not isSpaceChar (l.dropWhile isSpaceChar).reverse
  obtain ⟨u, hu⟩ := List.dropWhile_suffix (l := (l.dropWhile isSpaceChar).reverse)
    (p := isSpaceChar)
  have hpre : ∀ x,
      ((l.dropWhile isSpaceChar).reverse.dropWhile isSpaceChar).reverse.head? = some x →
      isSpaceChar x = false := by
    intro x hx
    cases hXr : ((l.dropWhile isSpaceChar).reverse.dropWhile isSpaceChar).reverse with
    | nil => rw [hXr] at hx; cases hx
    | cons c t =>
      have hA2 : l.dropWhile isSpaceChar
          = ((l.dropWhile isSpaceChar).reverse.dropWhile isSpaceChar).reverse
            ++ u.reverse := by
        have := congrArg List.reverse hu
        rw [List.reverse_append, List.reverse_reverse] at this
        exact this.symm
      rw [hXr] at hx hA2
      simp only [List.head?_cons, Option.some.injEq] at hx
      rw [← hx]
      exact hA c (by rw [hA2]; rfl)
  show ((((l.dropWhile isSpaceChar).reverse.dropWhile isSpaceChar).reverse.dropWhile
      isSpaceChar).reverse.dropWhile isSpaceChar).reverse = _
  rw [dropWhile_of_head_not isSpaceChar _ hpre, List.reverse_reverse,
    dropWhile_of_head_not isSpaceChar _ hX]
  rfl

theorem pyStrip_idem (s : String) : pyStrip (pyStrip s) = pyStrip s := by
  unfold pyStrip
  show String.mk (stripList (stripList s.data)) = _
  rw [stripList_idem]

/-! ### Invariants for idempotence -/

/-- Every column name is unchanged by another trim. -/
def stripFixed (df : DF) : Prop := ∀ c ∈ df, pyStrip c.name = c.name

/-- If the lower-case alias is present then so is the canonical name (so the
alias rename is a no-op). -/
def aliasClear (df : DF) (lo hi : String) : Prop :=
  hasColB df lo = true → hasColB df hi = true

/-- Writing back the current cells of column `n` leaves the frame unchanged
(all columns named `n` carry those same cells). -/
def setId (df : DF) (n : String) : Prop :=
  ∀ v, getCol df n = some v → setCol df n v = df

theorem stripFixed_trimCols (df : DF) : stripFixed (trimCols df) := by
  intro c hc
  unfold trimCols at hc
  rcases List.mem_map.mp hc with ⟨c0, -, rfl⟩
  exact pyStrip_idem c0.name

theorem stripFixed_setCol (df : DF) (n : String) (v : List Cell)
    (h : stripFixed df) (hn : pyStrip n = n) : stripFixed (setCol df n v) := by
  intro c hc
  rw [setCol_eq] at hc
  by_cases hb : hasColB df n
  · rw [if_pos hb] at hc
    rcases List.mem_map.mp hc with ⟨c0, hc0, rfl⟩
    by_cases he : (c0.name == n) = true
    · rw [if_pos he]
      exact hn
    · rw [if_neg he]
      exact h c0 hc0
  · rw [if_neg hb] at hc
    rcases List.mem_append.mp hc with h1 | h2
    · exact h c h1
    · have : c = ⟨n, v⟩ := by simpa using h2
      rw [this]
      exact hn

theorem stripFixed_renameCol (df : DF) (lo hi : String)
    (h : stripFixed df) (hhi : pyStrip hi = hi) : stripFixed (renameCol df lo hi) := by
  intro c hc
  unfold renameCol at hc
  rcases List.mem_map.mp hc with ⟨c0, hc0, rfl⟩
  by_cases he : (c0.name == lo) = true
  · rw [if_pos he]
    exact hhi
  · rw [if_neg he]
    exact h c0 hc0

theorem stripFixed_aliasStep (df : DF) (lo hi : String)
    (h : stripFixed df) (hhi : pyStrip hi = hi) : stripFixed (aliasStep df lo hi) := by
  unfold aliasStep
  split
  · exact stripFixed_renameCol df lo hi h hhi
  · exact h

theorem stripFixed_dateStep (df : DF) (h : stripFixed df) : stripFixed (dateStep df) := by
  unfold dateStep
  cases getCol df "Date"
  · exact h
  · exact stripFixed_setCol _ _ _ h (by decide)

theorem stripFixed_timeStep (df : DF) (h : stripFixed df) : stripFixed (timeStep df) := by
  unfold timeStep
  cases getCol df "Time"
  · exact h
  · exact stripFixed_setCol _ _ _ h (by decide)

theorem stripFixed_coerceStep1 (df : DF) (col : String)
    (h : stripFixed df) (hcol : pyStrip col = col) : stripFixed (coerceStep1 df col) := by
  unfold coerceStep1
  cases getCol df col
  · exact h
  · exact stripFixed_setCol _ _ _ h hcol

theorem stripFixed_fillStep1 (df : DF) (col : String)
    (h : stripFixed df) (hcol : pyStrip col = col) : stripFixed (fillStep1 df col) := by
  unfold fillStep1
  cases getCol df col
  · exact h
  · exact stripFixed_setCol _ _ _ h hcol

theorem stripFixed_foldl_coerce (L : List String) (df : DF)
    (h : stripFixed df) (hL : ∀ col ∈ L, pyStrip col = col) :
    stripFixed (L.foldl coerceStep1 df) := by
  induction L generalizing df with
  | nil => exact h
  | cons a t ih =>
    rw [List.foldl_cons]
    exact ih _ (stripFixed_coerceStep1 df a h (hL a (List.mem_cons_self a t)))
      (fun col hc => hL col (List.mem_cons_of_mem a hc))

theorem stripFixed_foldl_fill (L : List String) (df : DF)
    (h : stripFixed df) (hL : ∀ col ∈ L, pyStrip col = col) :
    stripFixed (L.foldl fillStep1 df) := by
  induction L generalizing df with
  | nil => exact h
  | cons a t ih =>
    rw [List.foldl_cons]
    exact ih _ (stripFixed_fillStep1 df a h (hL a (List.mem_cons_self a t)))
      (fun col hc => hL col (List.mem_cons_of_mem a hc))

theorem stripFixed_dateFeaturesStep (df : DF) (h : stripFixed df) :
    stripFixed (dateFeaturesStep df) := by
  unfold dateFeaturesStep
  cases getCol df "Date"
  · exact h
  · exact stripFixed_setCol _ _ _
      (stripFixed_setCol _ _ _ (stripFixed_setCol _ _ _ h (by decide)) (by decide))
      (by decide)

theorem stripFixed_routeStep (df : DF) (h : stripFixed df) : stripFixed (routeStep df) := by
  unfold routeStep
  cases getCol df "Pickup Location"
  · exact h
  · cases getCol df "Drop Location"
    · exact h
    · exact stripFixed_setCol _ _ _ h (by decide)

theorem stripFixed_statusStep (df : DF) (h : stripFixed df) : stripFixed (statusStep df) := by
  unfold statusStep
  cases getCol df "Booking Status"
  · exact h
  · exact stripFixed_setCol _ _ _
      (stripFixed_setCol _ _ _
        (stripFixed_setCol _ _ _ (stripFixed_setCol _ _ _ h (by decide)) (by decide))
        (by decide)) (by decide)

theorem stripFixed_preprocess (df : DF) : stripFixed (preprocess df) := by
  rw [preprocess_eq]
  apply stripFixed_statusStep
  apply stripFixed_routeStep
  apply stripFixed_dateFeaturesStep
  apply stripFixed_foldl_fill _ _ _ (by decide)
  apply stripFixed_foldl_coerce _ _ _ (by decide)
  apply stripFixed_timeStep
  apply stripFixed_dateStep
  unfold normCols normalizeAliases
  apply stripFixed_aliasStep _ _ _ _ (by decide)
  apply stripFixed_aliasStep _ _ _ _ (by decide)
  apply stripFixed_aliasStep _ _ _ _ (by decide)
  exact stripFixed_trimCols df

theorem trimCols_of_stripFixed (df : DF) (h : stripFixed df) : trimCols df = df := by
  unfold trimCols
  have : df.map (fun c => (⟨pyStrip c.name, c.cells⟩ : Col)) = df.map id := by
    apply List.map_congr_left
    intro c hc
    rw [h c hc]
    cases c
    rfl
  rw [this, List.map_id]

/-! ### aliasClear machinery -/

theorem aliasClear_aliasStep_self (df : DF) (lo hi : String) (hne : lo ≠ hi) :
    aliasClear (aliasStep df lo hi) lo hi := by
  unfold aliasStep
  by_cases hc : (hasColB df lo && !hasColB df hi) = true
  · rw [if_pos hc]
    intro hlo
    rw [hasColB_renameCol_lo df lo hi hne] at hlo
    cases hlo
  · rw [if_neg hc]
    intro hlo
    simp only [Bool.and_eq_true, Bool.not_eq_true', not_and] at hc
    cases hx : hasColB df hi
    · exact absurd (hc hlo) (by rw [hx]; simp)
    · rfl

theorem aliasClear_setCol (df : DF) (lo hi n : String) (v : List Cell)
    (h : aliasClear df lo hi) (hn : n ≠ lo) : aliasClear (setCol df n v) lo hi := by
  intro hlo
  rw [hasColB_setCol_ne df lo n v hn] at hlo
  by_cases he : n = hi
  · subst he
    exact hasColB_setCol_self df n v
  · rw [hasColB_setCol_ne df hi n v he]
    exact h hlo

theorem aliasClear_aliasStep_other (df : DF) (lo hi lo2 hi2 : String)
    (h : aliasClear df lo hi) (h1 : lo ≠ lo2) (h2 : lo ≠ hi2)
    (h3 : hi ≠ lo2) (h4 : hi ≠ hi2) : aliasClear (aliasStep df lo2 hi2) lo hi := by
  intro hlo
  rw [hasColB_aliasStep_other df lo2 hi2 lo h1 h2] at hlo
  rw [hasColB_aliasStep_other df lo2 hi2 hi h3 h4]
  exact h hlo

theorem aliasClear_dateStep (df : DF) (lo hi : String)
    (h : aliasClear df lo hi) (hn : "Date" ≠ lo) : aliasClear (dateStep df) lo hi := by
  unfold dateStep
  cases getCol df "Date"
  · exact h
  · exact aliasClear_setCol df lo hi "Date" _ h hn

theorem aliasClear_timeStep (df : DF) (lo hi : String)
    (h : aliasClear df lo hi) (hn : "Hour" ≠ lo) : aliasClear (timeStep df) lo hi := by
  unfold timeStep
  cases getCol df "Time"
  · exact h
  · exact aliasClear_setCol df lo hi "Hour" _ h hn

theorem aliasClear_coerceStep1 (df : DF) (lo hi col : String)
    (h : aliasClear df lo hi) (hn : col ≠ lo) : aliasClear (coerceStep1 df col) lo hi := by
  unfold coerceStep1
  cases getCol df col
  · exact h
  · exact aliasClear_setCol df lo hi col _ h hn

theorem aliasClear_fillStep1 (df : DF) (lo hi col : String)
    (h : aliasClear df lo hi) (hn : col ≠ lo) : aliasClear (fillStep1 df col) lo hi := by
  unfold fillStep1
  cases getCol df col
  · exact h
  · exact aliasClear_setCol df lo hi col _ h hn

theorem aliasClear_foldl_coerce (L : List String) (df : DF) (lo hi : String)
    (h : aliasClear df lo hi) (hL : ∀ col ∈ L, col ≠ lo) :
    aliasClear (L.foldl coerceStep1 df) lo hi := by
  induction L generalizing df with
  | nil => exact h
  | cons a t ih =>
    rw [List.foldl_cons]
    exact ih _ (aliasClear_coerceStep1 df lo hi a h (hL a (List.mem_cons_self a t)))
      (fun col hc => hL col (List.mem_cons_of_mem a hc))

theorem aliasClear_foldl_fill (L : List String) (df : DF) (lo hi : String)
    (h : aliasClear df lo hi) (hL : ∀ col ∈ L, col ≠ lo) :
    aliasClear (L.foldl fillStep1 df) lo hi := by
  induction L generalizing df with
  | nil => exact h
  | cons a t ih =>
    rw [List.foldl_cons]
    exact ih _ (aliasClear_fillStep1 df lo hi a h (hL a (List.mem_cons_self a t)))
      (fun col hc => hL col (List.mem_cons_of_mem a hc))

theorem aliasClear_dateFeaturesStep (df : DF) (lo hi : String)
    (h : aliasClear df lo hi) (h1 : "Day" ≠ lo) (h2 : "DayOfWeek" ≠ lo)
    (h3 : "Month" ≠ lo) : aliasClear (dateFeaturesStep df) lo hi := by
  unfold dateFeaturesStep
  cases getCol df "Date"
  · exact h
  · exact aliasClear_setCol _ lo hi "Month" _
      (aliasClear_setCol _ lo hi "DayOfWeek" _
        (aliasClear_setCol _ lo hi "Day" _ h h1) h2) h3

theorem aliasClear_routeStep (df : DF) (lo hi : String)
    (h : aliasClear df lo hi) (hn : "Route" ≠ lo) : aliasClear (routeStep df) lo hi := by
  unfold routeStep
  cases getCol df "Pickup Location"
  · exact h
  · cases getCol df "Drop Location"
    · exact h
    · exact aliasClear_setCol df lo hi "Route" _ h hn

theorem aliasClear_statusStep (df : DF) (lo hi : String)
    (h : aliasClear df lo hi) (h1 : "Booking Status" ≠ lo) (h2 : "Is_Completed" ≠ lo)
    (h3 : "Is_Cancelled" ≠ lo) (h4 : "Is_Incomplete" ≠ lo) :
    aliasClear (statusStep df) lo hi := by
  unfold statusStep
  cases getCol df "Booking Status"
  · exact h
  · exact aliasClear_setCol _ lo hi "Is_Incomplete" _
      (aliasClear_setCol _ lo hi "Is_Cancelled" _
        (aliasClear_setCol _ lo hi "Is_Completed" _
          (aliasClear_setCol _ lo hi "Booking Status" _ h h1) h2) h3) h4

theorem aliasClear_preprocess (df : DF) (lo hi : String) (hp : (lo, hi) ∈ aliasPairs) :
    aliasClear (preprocess df) lo hi := by
  have hp' : (lo, hi) = ("date", "Date") ∨ (lo, hi) = ("time", "Time")
      ∨ (lo, hi) = ("booking value", "Booking Value") := by
    simpa [aliasPairs] using hp
  have base : aliasClear (normCols df) lo hi := by
    unfold normCols normalizeAliases
    rcases hp' with h | h | h <;> obtain ⟨rfl, rfl⟩ := Prod.mk.injEq .. ▸ h
    · exact aliasClear_aliasStep_other _ _ _ _ _
        (aliasClear_aliasStep_other _ _ _ _ _
          (aliasClear_aliasStep_self _ _ _ (by decide))
          (by decide) (by decide) (by decide) (by decide))
        (by decide) (by decide) (by decide) (by decide)
    · exact aliasClear_aliasStep_other _ _ _ _ _
        (aliasClear_aliasStep_self _ _ _ (by decide))
        (by decide) (by decide) (by decide) (by decide)
    · exact aliasClear_aliasStep_self _ _ _ (by decide)
  have hlo : lo ≠ "Date" ∧ lo ≠ "Hour" ∧ (∀ c ∈ numericCols, c ≠ lo)
      ∧ (∀ c ∈ imputeCols, c ≠ lo) ∧ "Day" ≠ lo ∧ "DayOfWeek" ≠ lo ∧ "Month" ≠ lo
      ∧ "Route" ≠ lo ∧ "Booking Status" ≠ lo ∧ "Is_Completed" ≠ lo
      ∧ "Is_Cancelled" ≠ lo ∧ "Is_Incomplete" ≠ lo := by
    rcases hp' with h | h | h <;> obtain ⟨rfl, rfl⟩ := Prod.mk.injEq .. ▸ h <;>
      exact ⟨by decide, by decide, by decide, by decide, by decide, by decide,
        by decide, by decide, by decide, by decide, by decide, by decide⟩
  rw [preprocess_eq]
  apply aliasClear_statusStep _ _ _ _ hlo.2.2.2.2.2.2.2.2.1 hlo.2.2.2.2.2.2.2.2.2.1
    hlo.2.2.2.2.2.2.2.2.2.2.1 hlo.2.2.2.2.2.2.2.2.2.2.2
  apply aliasClear_routeStep _ _ _ _ hlo.2.2.2.2.2.2.2.1
  apply aliasClear_dateFeaturesStep _ _ _ _ hlo.2.2.2.2.1 hlo.2.2.2.2.2.1
    hlo.2.2.2.2.2.2.1
  apply aliasClear_foldl_fill _ _ _ _ _ hlo.2.2.2.1
  apply aliasClear_foldl_coerce _ _ _ _ _ hlo.2.2.1
  apply aliasClear_timeStep _ _ _ _ (Ne.symm hlo.2.1)
  apply aliasClear_dateStep _ _ _ _ (Ne.symm hlo.1)
  exact base

theorem aliasStep_of_aliasClear (df : DF) (lo hi : String)
    (h : aliasClear df lo hi) : aliasStep df lo hi = df := by
  unfold aliasStep
  by_cases hlo : hasColB df lo = true
  · rw [hlo, h hlo]
    simp
  · have : hasColB df lo = false := by
      cases hx : hasColB df lo
      · rfl
      · exact absurd hx hlo
    rw [this]
    simp

/-! ### setId machinery -/

theorem hasColB_append (df df2 : DF) (n : String) :
    hasColB (df ++ df2) n = (hasColB df n || hasColB df2 n) := by
  simp [hasColB, List.any_append]

theorem hasColB_setAllCol_ne (df : DF) (n m : String) (v : List Cell) (h : m ≠ n) :
    hasColB (setAllCol df m v) n = hasColB df n := by
  rw [← getCol_isSome, ← getCol_isSome, getCol_setAllCol_ne df n m v h]

theorem hasColB_setAllCol_self (df : DF) (n : String) (v : List Cell)
    (h : hasColB df n = true) : hasColB (setAllCol df n v) n = true := by
  rw [← getCol_isSome, getCol_setAllCol_self df n v h]
  rfl

theorem setAllCol_append (df df2 : DF) (n : String) (v : List Cell) :
    setAllCol (df ++ df2) n v = setAllCol df n v ++ setAllCol df2 n v := by
  unfold setAllCol
  rw [List.map_append]

theorem setAllCol_setAllCol (df : DF) (n : String) (v w : List Cell) :
    setAllCol (setAllCol df n v) n w = setAllCol df n w := by
  unfold setAllCol
  rw [List.map_map]
  apply List.map_congr_left
  intro c _
  by_cases he : c.name = n
  · simp [he]
  · simp [he]

theorem setAllCol_comm (df : DF) (m n : String) (v w : List Cell) (hmn : m ≠ n) :
    setAllCol (setAllCol df m v) n w = setAllCol (setAllCol df n w) m v := by
  unfold setAllCol
  rw [List.map_map, List.map_map]
  apply List.map_congr_left
  intro c _
  by_cases hm : c.name = m
  · simp [hm, hmn]
  · by_cases hn : c.name = n
    · simp [hm, hn, Ne.symm hmn]
    · simp [hm, hn]

theorem setAllCol_absent (df : DF) (n : String) (v : List Cell)
    (h : hasColB df n = false) : setAllCol df n v = df := by
  unfold setAllCol
  have hall : ∀ c ∈ df, (c.name == n) = false := by
    intro c hc
    cases hx : c.name == n
    · rfl
    · exfalso
      have hh : hasColB df n = true := by
        unfold hasColB
        rw [List.any_eq_true]
        exact ⟨c, hc, hx⟩
      rw [hh] at h
      cases h
  calc df.map (fun c => if c.name == n then (⟨n, v⟩ : Col) else c) = df.map id := by
        apply List.map_congr_left
        intro c hc
        rw [if_neg (by rw [hall c hc]; exact Bool.false_ne_true)]
        rfl
    _ = df := List.map_id df

theorem setCol_of_present (df : DF) (n : String) (v : List Cell)
    (h : hasColB df n = true) : setCol df n v = setAllCol df n v := by
  rw [setCol_eq, if_pos h]

theorem setId_setCol_self (df : DF) (n : String) (v : List Cell) :
    setId (setCol df n v) n := by
  intro w hw
  rw [getCol_setCol_self df n v] at hw
  have hv : v = w := by injection hw
  subst hv
  rw [setCol_eq df n v]
  by_cases hb : hasColB df n
  · rw [if_pos hb, setCol_of_present _ _ _ (hasColB_setAllCol_self df n v hb)]
    exact setAllCol_setAllCol df n v v
  · rw [if_neg hb,
      setCol_of_present _ _ _ (by rw [hasColB_append]; simp [hasColB]),
      setAllCol_append,
      setAllCol_absent df n v (by
        cases hx : hasColB df n with
        | false => rfl
        | true => exact absurd hx hb)]
    congr 1
    show [(if ((⟨n, v⟩ : Col).name == n) = true then (⟨n, v⟩ : Col) else ⟨n, v⟩)] = _
    rw [if_pos (by simp)]

theorem setId_setCol_other (df : DF) (n m : String) (v : List Cell) (hm : m ≠ n)
    (h : setId df n) : setId (setCol df m v) n := by
  intro w hw
  rw [getCol_setCol_ne df n m v hm] at hw
  have hdf := h w hw
  have hn : hasColB df n = true := by
    rw [← getCol_isSome, hw]
    rfl
  rw [setCol_eq df m v]
  by_cases hb : hasColB df m
  · rw [if_pos hb,
      setCol_of_present _ _ _ (by rw [hasColB_setAllCol_ne df n m v hm]; exact hn),
      setAllCol_comm df m n v w hm]
    have hx : setAllCol df n w = df := by
      rw [← setCol_of_present df n w hn]
      exact hdf
    rw [hx]
  · rw [if_neg hb,
      setCol_of_present _ _ _ (by rw [hasColB_append, hn]; rfl),
      setAllCol_append]
    have h2 : setAllCol [(⟨m, v⟩ : Col)] n w = [⟨m, v⟩] := by
      show [(if ((⟨m, v⟩ : Col).name == n) = true then (⟨n, w⟩ : Col) else ⟨m, v⟩)] = _
      rw [if_neg (by simp [hm])]
    rw [h2]
    have h1 : setAllCol df n w = df := by
      rw [← setCol_of_present df n w hn]
      exact hdf
    rw [h1]

theorem setId_dateStep (df : DF) (n : String) (hn : n ≠ "Date") (h : setId df n) :
    setId (dateStep df) n := by
  unfold dateStep
  cases getCol df "Date"
  · exact h
  · exact setId_setCol_other df n "Date" _ (Ne.symm hn) h

theorem setId_timeStep (df : DF) (n : String) (hn : n ≠ "Hour") (h : setId df n) :
    setId (timeStep df) n := by
  unfold timeStep
  cases getCol df "Time"
  · exact h
  · exact setId_setCol_other df n "Hour" _ (Ne.symm hn) h

theorem setId_coerceStep1 (df : DF) (n col : String) (hn : col ≠ n) (h : setId df n) :
    setId (coerceStep1 df col) n := by
  unfold coerceStep1
  cases getCol df col
  · exact h
  · exact setId_setCol_other df n col _ hn h

theorem setId_fillStep1 (df : DF) (n col : String) (hn : col ≠ n) (h : setId df n) :
    setId (fillStep1 df col) n := by
  unfold fillStep1
  cases getCol df col
  · exact h
  · exact setId_setCol_other df n col _ hn h

theorem setId_foldl_coerce (L : List String) (df : DF) (n : String)
    (hL : ∀ col ∈ L, col ≠ n) (h : setId df n) : setId (L.foldl coerceStep1 df) n := by
  induction L generalizing df with
  | nil => exact h
  | cons a t ih =>
    rw [List.foldl_cons]
    exact ih _ (fun col hc => hL col (List.mem_cons_of_mem a hc))
      (setId_coerceStep1 df n a (hL a (List.mem_cons_self a t)) h)

theorem setId_foldl_fill (L : List String) (df : DF) (n : String)
    (hL : ∀ col ∈ L, col ≠ n) (h : setId df n) : setId (L.foldl fillStep1 df) n := by
  induction L generalizing df with
  | nil => exact h
  | cons a t ih =>
    rw [List.foldl_cons]
    exact ih _ (fun col hc => hL col (List.mem_cons_of_mem a hc))
      (setId_fillStep1 df n a (hL a (List.mem_cons_self a t)) h)

theorem setId_dateFeaturesStep (df : DF) (n : String)
    (h1 : n ≠ "Day") (h2 : n ≠ "DayOfWeek") (h3 : n ≠ "Month") (h : setId df n) :
    setId (dateFeaturesStep df) n := by
  unfold dateFeaturesStep
  cases getCol df "Date"
  · exact h
  · exact setId_setCol_other _ n "Month" _ (Ne.symm h3)
      (setId_setCol_other _ n "DayOfWeek" _ (Ne.symm h2)
        (setId_setCol_other _ n "Day" _ (Ne.symm h1) h))

theorem setId_routeStep (df : DF) (n : String) (hn : n ≠ "Route") (h : setId df n) :
    setId (routeStep df) n := by
  unfold routeStep
  cases getCol df "Pickup Location"
  · exact h
  · cases getCol df "Drop Location"
    · exact h
    · exact setId_setCol_other df n "Route" _ (Ne.symm hn) h

theorem setId_statusStep (df : DF) (n : String)
    (h1 : n ≠ "Booking Status") (h2 : n ≠ "Is_Completed")
    (h3 : n ≠ "Is_Cancelled") (h4 : n ≠ "Is_Incomplete") (h : setId df n) :
    setId (statusStep df) n := by
  unfold statusStep
  cases getCol df "Booking Status"
  · exact h
  · exact setId_setCol_other _ n "Is_Incomplete" _ (Ne.symm h4)
      (setId_setCol_other _ n "Is_Cancelled" _ (Ne.symm h3)
        (setId_setCol_other _ n "Is_Completed" _ (Ne.symm h2)
          (setId_setCol_other _ n "Booking Status" _ (Ne.symm h1) h)))

/-! ### Cell-transform idempotence and presence trackers -/

theorem bool_eq_false (b : Bool) (h : ¬b = true) : b = false := by
  cases b
  · rfl
  · exact absurd rfl h

theorem getCol_of_hasColB (df : DF) (n : String) (h : hasColB df n = true) :
    ∃ cs, getCol df n = some cs := by
  have hs := getCol_isSome df n
  rw [h] at hs
  cases hx : getCol df n with
  | none => rw [hx] at hs; simp at hs
  | some cs => exact ⟨cs, rfl⟩

theorem toDatetimeCell_idem (c : Cell) :
    toDatetimeCell (toDatetimeCell c) = toDatetimeCell c := by
  cases c with
  | str s =>
    simp only [toDatetimeCell]
    cases hp : parseDateList (stripList s.data) with
    | none => rfl
    | some t =>
      obtain ⟨y, m, d⟩ := t
      rfl
  | missing => rfl
  | num q => rfl
  | date y m d => rfl
  | bool b => rfl

theorem toNumericCell_of_shape (c : Cell)
    (h : (∃ q, c = Cell.num q) ∨ c = Cell.missing) : toNumericCell c = c := by
  rcases h with ⟨q, rfl⟩ | rfl <;> rfl

theorem toNumericCell_idem (c : Cell) :
    toNumericCell (toNumericCell c) = toNumericCell c := by
  apply toNumericCell_of_shape
  rcases toNumericCell_shape c with ⟨q, hq⟩ | hq
  · exact Or.inl ⟨q, hq⟩
  · exact Or.inr hq

theorem fillNa_no_missing (cs : List Cell) (v : ℚ) :
    ∀ c ∈ fillNa cs v, c ≠ Cell.missing := by
  intro c hc
  rcases List.mem_map.mp hc with ⟨c0, -, rfl⟩
  cases c0 <;> simp

theorem fillNa_of_no_missing (cs : List Cell) (v : ℚ)
    (h : ∀ c ∈ cs, c ≠ Cell.missing) : fillNa cs v = cs := by
  unfold fillNa
  calc cs.map (fun c => match c with | Cell.missing => Cell.num v | c => c)
      = cs.map id := by
        apply List.map_congr_left
        intro c hc
        cases c
        · exact absurd rfl (h _ hc)
        · rfl
        · rfl
        · rfl
        · rfl
    _ = cs := List.map_id cs

theorem fillMedianCol_idem (ds : List Cell) :
    fillMedianCol (fillMedianCol ds) = fillMedianCol ds := by
  cases hm : medianQ (numericVals ds) with
  | none =>
    rw [fillMedianCol_of_none ds hm, fillMedianCol_of_none ds hm]
  | some m =>
    rw [fillMedianCol_of_median ds m hm]
    cases hm2 : medianQ (numericVals (fillNa ds m)) with
    | none => exact fillMedianCol_of_none _ hm2
    | some m2 =>
      rw [fillMedianCol_of_median _ m2 hm2]
      exact fillNa_of_no_missing _ m2 (fillNa_no_missing ds m)

theorem shape_fillMedianCol (ds : List Cell)
    (hds : ∀ c ∈ ds, (∃ q, c = Cell.num q) ∨ c = Cell.missing) :
    ∀ c ∈ fillMedianCol ds, (∃ q, c = Cell.num q) ∨ c = Cell.missing := by
  intro c hc
  cases hm : medianQ (numericVals ds) with
  | none =>
    rw [fillMedianCol_of_none ds hm] at hc
    exact hds c hc
  | some m =>
    rw [fillMedianCol_of_median ds m hm] at hc
    rcases List.mem_map.mp hc with ⟨c0, hc0, rfl⟩
    rcases hds c0 hc0 with ⟨q, rfl⟩ | rfl
    · exact Or.inl ⟨q, rfl⟩
    · exact Or.inl ⟨m, rfl⟩

theorem map_toNumericCell_of_shape (ds : List Cell)
    (hds : ∀ c ∈ ds, (∃ q, c = Cell.num q) ∨ c = Cell.missing) :
    ds.map toNumericCell = ds := by
  calc ds.map toNumericCell = ds.map id := by
        apply List.map_congr_left
        intro c hc
        exact toNumericCell_of_shape c (hds c hc)
    _ = ds := List.map_id ds

theorem shape_map_toNumericCell (cs : List Cell) :
    ∀ c ∈ cs.map toNumericCell, (∃ q, c = Cell.num q) ∨ c = Cell.missing := by
  intro c hc
  rcases List.mem_map.mp hc with ⟨c0, -, rfl⟩
  rcases toNumericCell_shape c0 with ⟨q, hq⟩ | hq
  · exact Or.inl ⟨q, hq⟩
  · exact Or.inr hq

theorem statusCell_idem (c : Cell) : statusCell (statusCell c) = statusCell c := by
  show Cell.str (normStatusStr (pyStr (Cell.str (normStatusStr (pyStr c))))) = _
  show Cell.str (normStatusStr (normStatusStr (pyStr c))) = _
  rw [normStatusStr_idem]
  rfl

theorem hasColB_setCol_present (df : DF) (m n : String) (v : List Cell)
    (h : hasColB df m = true) : hasColB (setCol df m v) n = hasColB df n := by
  by_cases he : m = n
  · subst he
    rw [hasColB_setCol_self, h]
  · exact hasColB_setCol_ne df n m v he

theorem hasColB_dateStep_all (df : DF) (n : String) :
    hasColB (dateStep df) n = hasColB df n := by
  unfold dateStep
  cases hx : getCol df "Date" with
  | none => rfl
  | some cs =>
    apply hasColB_setCol_present
    rw [← getCol_isSome, hx]
    rfl

theorem hasColB_timeStep_ne (df : DF) (n : String) (h : n ≠ "Hour") :
    hasColB (timeStep df) n = hasColB df n :=
  hasColB_of_getCol_eq _ _ _ (getCol_timeStep_ne df n h)

theorem hasColB_coerceStep1_all (df : DF) (col n : String) :
    hasColB (coerceStep1 df col) n = hasColB df n := by
  unfold coerceStep1
  cases hx : getCol df col with
  | none => rfl
  | some cs =>
    apply hasColB_setCol_present
    rw [← getCol_isSome, hx]
    rfl

theorem hasColB_fillStep1_all (df : DF) (col n : String) :
    hasColB (fillStep1 df col) n = hasColB df n := by
  unfold fillStep1
  cases hx : getCol df col with
  | none => rfl
  | some cs =>
    apply hasColB_setCol_present
    rw [← getCol_isSome, hx]
    rfl

theorem hasColB_foldl_coerce_all (L : List String) (df : DF) (n : String) :
    hasColB (L.foldl coerceStep1 df) n = hasColB df n := by
  induction L generalizing df with
  | nil => rfl
  | cons a t ih => rw [List.foldl_cons, ih, hasColB_coerceStep1_all]

theorem hasColB_foldl_fill_all (L : List String) (df : DF) (n : String) :
    hasColB (L.foldl fillStep1 df) n = hasColB df n := by
  induction L generalizing df with
  | nil => rfl
  | cons a t ih => rw [List.foldl_cons, ih, hasColB_fillStep1_all]

theorem hasColB_numericStep_all (df : DF) (n : String) :
    hasColB (numericStep df) n = hasColB df n :=
  hasColB_foldl_coerce_all numericCols df n

theorem hasColB_medianFillStep_all (df : DF) (n : String) :
    hasColB (medianFillStep df) n = hasColB df n :=
  hasColB_foldl_fill_all imputeCols df n

theorem hasColB_dateFeaturesStep_ne (df : DF) (n : String)
    (h1 : n ≠ "Day") (h2 : n ≠ "DayOfWeek") (h3 : n ≠ "Month") :
    hasColB (dateFeaturesStep df) n = hasColB df n :=
  hasColB_of_getCol_eq _ _ _ (getCol_dateFeaturesStep_ne df n h1 h2 h3)

theorem hasColB_routeStep_ne (df : DF) (n : String) (h : n ≠ "Route") :
    hasColB (routeStep df) n = hasColB df n :=
  hasColB_of_getCol_eq _ _ _ (getCol_routeStep_ne df n h)

theorem hasColB_statusStep (df : DF) (n : String)
    (h2 : n ≠ "Is_Completed") (h3 : n ≠ "Is_Cancelled") (h4 : n ≠ "Is_Incomplete") :
    hasColB (statusStep df) n = hasColB df n := by
  unfold statusStep
  cases hx : getCol df "Booking Status" with
  | none => rfl
  | some cs =>
    have hbs : hasColB df "Booking Status" = true := by
      rw [← getCol_isSome, hx]
      rfl
    rw [hasColB_setCol_ne _ n "Is_Incomplete" _ (Ne.symm h4),
      hasColB_setCol_ne _ n "Is_Cancelled" _ (Ne.symm h3),
      hasColB_setCol_ne _ n "Is_Completed" _ (Ne.symm h2),
      hasColB_setCol_present df "Booking Status" n _ hbs]

theorem hasColB_preprocess_src (df : DF) (n : String)
    (hn1 : n ≠ "Hour") (hn2 : n ≠ "Day") (hn3 : n ≠ "DayOfWeek") (hn4 : n ≠ "Month")
    (hn5 : n ≠ "Route") (hn6 : n ≠ "Is_Completed") (hn7 : n ≠ "Is_Cancelled")
    (hn8 : n ≠ "Is_Incomplete") :
    hasColB (preprocess df) n = hasColB (normCols df) n := by
  rw [preprocess_eq, hasColB_statusStep _ _ hn6 hn7 hn8, hasColB_routeStep_ne _ _ hn5,
    hasColB_dateFeaturesStep_ne _ _ hn2 hn3 hn4, hasColB_medianFillStep_all,
    hasColB_numericStep_all, hasColB_timeStep_ne _ _ hn1, hasColB_dateStep_all]

theorem getCol_preprocess_untouched (df : DF) (n : String)
    (h1 : n ≠ "Date") (h2 : n ≠ "Hour") (h3 : n ∉ numericCols) (h4 : n ∉ imputeCols)
    (h5 : n ≠ "Day") (h6 : n ≠ "DayOfWeek") (h7 : n ≠ "Month") (h8 : n ≠ "Route")
    (h9 : n ≠ "Booking Status") (h10 : n ≠ "Is_Completed") (h11 : n ≠ "Is_Cancelled")
    (h12 : n ≠ "Is_Incomplete") :
    getCol (preprocess df) n = getCol (normCols df) n := by
  rw [preprocess_eq, getCol_statusStep_ne _ _ h9 h10 h11 h12, getCol_routeStep_ne _ _ h8,
    getCol_dateFeaturesStep_ne _ _ h5 h6 h7, getCol_medianFillStep_ne _ _ h4,
    getCol_numericStep_ne _ _ h3, getCol_timeStep_ne _ _ h2, getCol_dateStep_ne _ _ h1]

/-! ### setId facts about the pipeline output -/

theorem setId_foldl_coerce_mem (L : List String) (df : DF) (col : String)
    (hmem : col ∈ L) (hnd : L.Nodup) (hpres : hasColB df col = true) :
    setId (L.foldl coerceStep1 df) col := by
  induction L generalizing df with
  | nil => cases hmem
  | cons a t ih =>
    rw [List.foldl_cons]
    rcases List.mem_cons.mp hmem with rfl | hmt
    · apply setId_foldl_coerce t _ col
        (fun c hc he => (List.nodup_cons.mp hnd).1 (he ▸ hc))
      obtain ⟨cs, hcs⟩ := getCol_of_hasColB df col hpres
      unfold coerceStep1
      rw [hcs]
      exact setId_setCol_self _ _ _
    · exact ih _ hmt (List.nodup_cons.mp hnd).2
        (by rw [hasColB_coerceStep1_all]; exact hpres)

theorem setId_foldl_fill_mem (L : List String) (df : DF) (col : String)
    (hmem : col ∈ L) (hnd : L.Nodup) (hpres : hasColB df col = true) :
    setId (L.foldl fillStep1 df) col := by
  induction L generalizing df with
  | nil => cases hmem
  | cons a t ih =>
    rw [List.foldl_cons]
    rcases List.mem_cons.mp hmem with rfl | hmt
    · apply setId_foldl_fill t _ col
        (fun c hc he => (List.nodup_cons.mp hnd).1 (he ▸ hc))
      obtain ⟨cs, hcs⟩ := getCol_of_hasColB df col hpres
      unfold fillStep1
      rw [hcs]
      exact setId_setCol_self _ _ _
    · exact ih _ hmt (List.nodup_cons.mp hnd).2
        (by rw [hasColB_fillStep1_all]; exact hpres)

theorem setId_preprocess_date (df : DF) (h : hasColB (normCols df) "Date" = true) :
    setId (preprocess df) "Date" := by
  rw [preprocess_eq]
  apply setId_statusStep _ _ (by decide) (by decide) (by decide) (by decide)
  apply setId_routeStep _ _ (by decide)
  apply setId_dateFeaturesStep _ _ (by decide) (by decide) (by decide)
  apply setId_foldl_fill _ _ _ (by decide)
  apply setId_foldl_coerce _ _ _ (by decide)
  apply setId_timeStep _ _ (by decide)
  obtain ⟨cs, hcs⟩ := getCol_of_hasColB _ _ h
  unfold dateStep
  rw [hcs]
  exact setId_setCol_self _ _ _

theorem setId_preprocess_hour (df : DF) (h : hasColB (normCols df) "Time" = true) :
    setId (preprocess df) "Hour" := by
  rw [preprocess_eq]
  apply setId_statusStep _ _ (by decide) (by decide) (by decide) (by decide)
  apply setId_routeStep _ _ (by decide)
  apply setId_dateFeaturesStep _ _ (by decide) (by decide) (by decide)
  apply setId_foldl_fill _ _ _ (by decide)
  apply setId_foldl_coerce _ _ _ (by decide)
  obtain ⟨cs, hcs⟩ := getCol_of_hasColB _ _ h
  have ht : getCol (dateStep (normCols df)) "Time" = some cs := by
    rw [getCol_dateStep_ne _ _ (by decide)]
    exact hcs
  unfold timeStep
  rw [ht]
  exact setId_setCol_self _ _ _

theorem setId_preprocess_numcol (df : DF) (col : String) (hcol : col ∈ numericCols)
    (h : hasColB (normCols df) col = true) : setId (preprocess df) col := by
  have d1 : col ≠ "Booking Status" := fun he => absurd (he ▸ hcol) (by decide)
  have d2 : col ≠ "Is_Completed" := fun he => absurd (he ▸ hcol) (by decide)
  have d3 : col ≠ "Is_Cancelled" := fun he => absurd (he ▸ hcol) (by decide)
  have d4 : col ≠ "Is_Incomplete" := fun he => absurd (he ▸ hcol) (by decide)
  have d5 : col ≠ "Route" := fun he => absurd (he ▸ hcol) (by decide)
  have d6 : col ≠ "Day" := fun he => absurd (he ▸ hcol) (by decide)
  have d7 : col ≠ "DayOfWeek" := fun he => absurd (he ▸ hcol) (by decide)
  have d8 : col ≠ "Month" := fun he => absurd (he ▸ hcol) (by decide)
  have d9 : col ≠ "Hour" := fun he => absurd (he ▸ hcol) (by decide)
  rw [preprocess_eq]
  apply setId_statusStep _ _ d1 d2 d3 d4
  apply setId_routeStep _ _ d5
  apply setId_dateFeaturesStep _ _ d6 d7 d8
  have hpres2 : hasColB (timeStep (dateStep (normCols df))) col = true := by
    rw [hasColB_timeStep_ne _ _ d9, hasColB_dateStep_all]
    exact h
  by_cases himp : col ∈ imputeCols
  · apply setId_foldl_fill_mem imputeCols _ col himp imputeCols_nodup
    show hasColB (numericStep (timeStep (dateStep (normCols df)))) col = true
    rw [hasColB_numericStep_all]
    exact hpres2
  · apply setId_foldl_fill _ _ _ (fun c hc he => himp (by rw [← he]; exact hc))
    exact setId_foldl_coerce_mem numericCols _ col hcol numericCols_nodup hpres2

theorem setId_preprocess_features (df : DF) (h : hasColB (normCols df) "Date" = true) :
    setId (preprocess df) "Day" ∧ setId (preprocess df) "DayOfWeek"
      ∧ setId (preprocess df) "Month" := by
  have hp : hasColB (medianFillStep (numericStep (timeStep (dateStep (normCols df)))))
      "Date" = true := by
    rw [hasColB_medianFillStep_all, hasColB_numericStep_all,
      hasColB_timeStep_ne _ _ (by decide), hasColB_dateStep_all]
    exact h
  obtain ⟨cs, hcs⟩ := getCol_of_hasColB _ _ hp
  refine ⟨?_, ?_, ?_⟩ <;>
    rw [preprocess_eq] <;>
    apply setId_statusStep _ _ (by decide) (by decide) (by decide) (by decide) <;>
    apply setId_routeStep _ _ (by decide) <;>
    unfold dateFeaturesStep <;>
    rw [hcs]
  · apply setId_setCol_other _ _ "Month" _ (by decide)
    apply setId_setCol_other _ _ "DayOfWeek" _ (by decide)
    exact setId_setCol_self _ _ _
  · apply setId_setCol_other _ _ "Month" _ (by decide)
    exact setId_setCol_self _ _ _
  · exact setId_setCol_self _ _ _

theorem setId_preprocess_route (df : DF)
    (hp : hasColB (normCols df) "Pickup Location" = true)
    (hq : hasColB (normCols df) "Drop Location" = true) :
    setId (preprocess df) "Route" := by
  rw [preprocess_eq]
  apply setId_statusStep _ _ (by decide) (by decide) (by decide) (by decide)
  have hp2 : hasColB (dateFeaturesStep (medianFillStep (numericStep (timeStep (dateStep
      (normCols df)))))) "Pickup Location" = true := by
    rw [hasColB_dateFeaturesStep_ne _ _ (by decide) (by decide) (by decide),
      hasColB_medianFillStep_all, hasColB_numericStep_all,
      hasColB_timeStep_ne _ _ (by decide), hasColB_dateStep_all]
    exact hp
  have hq2 : hasColB (dateFeaturesStep (medianFillStep (numericStep (timeStep (dateStep
      (normCols df)))))) "Drop Location" = true := by
    rw [hasColB_dateFeaturesStep_ne _ _ (by decide) (by decide) (by decide),
      hasColB_medianFillStep_all, hasColB_numericStep_all,
      hasColB_timeStep_ne _ _ (by decide), hasColB_dateStep_all]
    exact hq
  obtain ⟨ps, hps⟩ := getCol_of_hasColB _ _ hp2
  obtain ⟨qs, hqs⟩ := getCol_of_hasColB _ _ hq2
  unfold routeStep
  rw [hps, hqs]
  exact setId_setCol_self _ _ _

theorem setId_preprocess_status (df : DF)
    (h : hasColB (normCols df) "Booking Status" = true) :
    setId (preprocess df) "Booking Status" ∧ setId (preprocess df) "Is_Completed"
      ∧ setId (preprocess df) "Is_Cancelled" ∧ setId (preprocess df) "Is_Incomplete" := by
  have hb : hasColB (routeStep (dateFeaturesStep (medianFillStep (numericStep (timeStep
      (dateStep (normCols df))))))) "Booking Status" = true := by
    rw [hasColB_routeStep_ne _ _ (by decide),
      hasColB_dateFeaturesStep_ne _ _ (by decide) (by decide) (by decide),
      hasColB_medianFillStep_all, hasColB_numericStep_all,
      hasColB_timeStep_ne _ _ (by decide), hasColB_dateStep_all]
    exact h
  obtain ⟨cs, hcs⟩ := getCol_of_hasColB _ _ hb
  refine ⟨?_, ?_, ?_, ?_⟩ <;>
    rw [preprocess_eq] <;>
    unfold statusStep <;>
    rw [hcs]
  · apply setId_setCol_other _ _ "Is_Incomplete" _ (by decide)
    apply setId_setCol_other _ _ "Is_Cancelled" _ (by decide)
    apply setId_setCol_other _ _ "Is_Completed" _ (by decide)
    exact setId_setCol_self _ _ _
  · apply setId_setCol_other _ _ "Is_Incomplete" _ (by decide)
    apply setId_setCol_other _ _ "Is_Cancelled" _ (by decide)
    exact setId_setCol_self _ _ _
  · apply setId_setCol_other _ _ "Is_Incomplete" _ (by decide)
    exact setId_setCol_self _ _ _
  · exact setId_setCol_self _ _ _

/-! ### Step equation lemmas -/

theorem dateStep_of_some (df : DF) (cs : List Cell) (h : getCol df "Date" = some cs) :
    dateStep df = setCol df "Date" (cs.map toDatetimeCell) := by
  unfold dateStep
  rw [h]

theorem timeStep_of_some (df : DF) (cs : List Cell) (h : getCol df "Time" = some cs) :
    timeStep df = setCol df "Hour" (hourColumn cs) := by
  unfold timeStep
  rw [h]

theorem timeStep_of_none (df : DF) (h : getCol df "Time" = none) : timeStep df = df := by
  unfold timeStep
  rw [h]

theorem coerceStep1_of_some (df : DF) (col : String) (cs : List Cell)
    (h : getCol df col = some cs) :
    coerceStep1 df col = setCol df col (cs.map toNumericCell) := by
  unfold coerceStep1
  rw [h]

theorem coerceStep1_of_none (df : DF) (col : String) (h : getCol df col = none) :
    coerceStep1 df col = df := by
  unfold coerceStep1
  rw [h]

theorem fillStep1_of_some (df : DF) (col : String) (cs : List Cell)
    (h : getCol df col = some cs) :
    fillStep1 df col = setCol df col (fillMedianCol cs) := by
  unfold fillStep1
  rw [h]

theorem fillStep1_of_none (df : DF) (col : String) (h : getCol df col = none) :
    fillStep1 df col = df := by
  unfold fillStep1
  rw [h]

theorem dateFeaturesStep_of_some (df : DF) (cs : List Cell)
    (h : getCol df "Date" = some cs) :
    dateFeaturesStep df = setCol (setCol (setCol df "Day" (cs.map dayCell))
      "DayOfWeek" (cs.map dowCell)) "Month" (cs.map monthCell) := by
  unfold dateFeaturesStep
  rw [h]

theorem dateFeaturesStep_of_none (df : DF) (h : getCol df "Date" = none) :
    dateFeaturesStep df = df := by
  unfold dateFeaturesStep
  rw [h]

theorem routeStep_of_some (df : DF) (ps qs : List Cell)
    (hp : getCol df "Pickup Location" = some ps)
    (hq : getCol df "Drop Location" = some qs) :
    routeStep df = setCol df "Route" (List.zipWith routeCell ps qs) := by
  unfold routeStep
  rw [hp, hq]

theorem routeStep_of_none_left (df : DF) (hp : getCol df "Pickup Location" = none) :
    routeStep df = df := by
  unfold routeStep
  rw [hp]

theorem routeStep_of_none_right (df : DF) (hq : getCol df "Drop Location" = none) :
    routeStep df = df := by
  unfold routeStep
  rw [hq]
  cases getCol df "Pickup Location" <;> rfl

theorem statusStep_of_some (df : DF) (cs : List Cell)
    (h : getCol df "Booking Status" = some cs) :
    statusStep df = setCol (setCol (setCol (setCol df "Booking Status" (cs.map statusCell))
      "Is_Completed" ((cs.map statusCell).map (fun c => Cell.bool (c == Cell.str "Completed"))))
      "Is_Cancelled" ((cs.map statusCell).map (fun c => Cell.bool (c == Cell.str "Cancelled"))))
      "Is_Incomplete" ((cs.map statusCell).map (fun c => Cell.bool (c == Cell.str "Incomplete"))) := by
  unfold statusStep
  rw [h]

theorem statusStep_of_none (df : DF) (h : getCol df "Booking Status" = none) :
    statusStep df = df := by
  unfold statusStep
  rw [h]

theorem foldl_id (L : List String) (df : DF) (f : DF → String → DF)
    (h : ∀ col ∈ L, f df col = df) : L.foldl f df = df := by
  induction L with
  | nil => rfl
  | cons a t ih =>
    rw [List.foldl_cons, h a (List.mem_cons_self a t)]
    exact ih (fun col hc => h col (List.mem_cons_of_mem a hc))

/-! ### Each pipeline step fixes the pipeline output -/

theorem trimCols_preprocess (df : DF) : trimCols (preprocess df) = preprocess df :=
  trimCols_of_stripFixed _ (stripFixed_preprocess df)

theorem normalizeAliases_preprocess (df : DF) :
    normalizeAliases (preprocess df) = preprocess df := by
  unfold normalizeAliases
  rw [aliasStep_of_aliasClear _ _ _ (aliasClear_preprocess df "date" "Date" (by decide)),
    aliasStep_of_aliasClear _ _ _ (aliasClear_preprocess df "time" "Time" (by decide)),
    aliasStep_of_aliasClear _ _ _
      (aliasClear_preprocess df "booking value" "Booking Value" (by decide))]

theorem normCols_preprocess (df : DF) : normCols (preprocess df) = preprocess df := by
  unfold normCols
  rw [trimCols_preprocess, normalizeAliases_preprocess]

theorem dateStep_preprocess (df : DF) : dateStep (preprocess df) = preprocess df := by
  by_cases h : hasColB (normCols df) "Date" = true
  · obtain ⟨cs, hcs⟩ := getCol_of_hasColB _ _ h
    have hd : getCol (preprocess df) "Date" = some (cs.map toDatetimeCell) :=
      preprocess_date df cs hcs
    rw [dateStep_of_some _ _ hd]
    have hmap : (cs.map toDatetimeCell).map toDatetimeCell = cs.map toDatetimeCell := by
      rw [List.map_map]
      apply List.map_congr_left
      intro c _
      exact toDatetimeCell_idem c
    rw [hmap]
    exact setId_preprocess_date df h _ hd
  · have h2 : hasColB (preprocess df) "Date" = false := by
      rw [hasColB_preprocess_src df "Date" (by decide) (by decide) (by decide) (by decide)
        (by decide) (by decide) (by decide) (by decide)]
      exact bool_eq_false _ h
    exact dateStep_absent _ (getCol_eq_none _ _ h2)

theorem timeStep_preprocess (df : DF) : timeStep (preprocess df) = preprocess df := by
  have ht : getCol (preprocess df) "Time" = getCol (normCols df) "Time" :=
    getCol_preprocess_untouched df "Time" (by decide) (by decide) (by decide) (by decide)
      (by decide) (by decide) (by decide) (by decide) (by decide) (by decide) (by decide)
      (by decide)
  by_cases h : hasColB (normCols df) "Time" = true
  · obtain ⟨cs, hcs⟩ := getCol_of_hasColB _ _ h
    have hh : getCol (preprocess df) "Hour" = some (hourColumn cs) :=
      preprocess_hour df cs hcs
    rw [timeStep_of_some _ cs (ht.trans hcs)]
    exact setId_preprocess_hour df h _ hh
  · exact timeStep_of_none _ (by rw [ht]; exact getCol_eq_none _ _ (bool_eq_false _ h))

theorem coerceStep1_preprocess (df : DF) (col : String) (hcol : col ∈ numericCols) :
    coerceStep1 (preprocess df) col = preprocess df := by
  by_cases h : hasColB (normCols df) col = true
  · obtain ⟨cs, hcs⟩ := getCol_of_hasColB _ _ h
    by_cases himp : col ∈ imputeCols
    · have hdc := preprocess_impute_col df col cs himp hcs
      rw [coerceStep1_of_some _ _ _ hdc,
        map_toNumericCell_of_shape _ (shape_fillMedianCol _ (shape_map_toNumericCell cs))]
      exact setId_preprocess_numcol df col hcol h _ hdc
    · have hdc := preprocess_numeric_col df col cs hcol himp hcs
      rw [coerceStep1_of_some _ _ _ hdc,
        map_toNumericCell_of_shape _ (shape_map_toNumericCell cs)]
      exact setId_preprocess_numcol df col hcol h _ hdc
  · have h2 : hasColB (preprocess df) col = false := by
      rw [hasColB_preprocess_src df col
        (fun he => absurd (he ▸ hcol) (by decide)) (fun he => absurd (he ▸ hcol) (by decide))
        (fun he => absurd (he ▸ hcol) (by decide)) (fun he => absurd (he ▸ hcol) (by decide))
        (fun he => absurd (he ▸ hcol) (by decide)) (fun he => absurd (he ▸ hcol) (by decide))
        (fun he => absurd (he ▸ hcol) (by decide)) (fun he => absurd (he ▸ hcol) (by decide))]
      exact bool_eq_false _ h
    exact coerceStep1_of_none _ _ (getCol_eq_none _ _ h2)

theorem numericStep_preprocess (df : DF) : numericStep (preprocess df) = preprocess df :=
  foldl_id numericCols (preprocess df) coerceStep1
    (fun col hc => coerceStep1_preprocess df col hc)

theorem fillStep1_preprocess (df : DF) (col : String) (hcol : col ∈ imputeCols) :
    fillStep1 (preprocess df) col = preprocess df := by
  have hnum : col ∈ numericCols := by
    have hall : ∀ x ∈ imputeCols, x ∈ numericCols := by decide
    exact hall col hcol
  by_cases h : hasColB (normCols df) col = true
  · obtain ⟨cs, hcs⟩ := getCol_of_hasColB _ _ h
    have hdc := preprocess_impute_col df col cs hcol hcs
    rw [fillStep1_of_some _ _ _ hdc, fillMedianCol_idem]
    exact setId_preprocess_numcol df col hnum h _ hdc
  · have h2 : hasColB (preprocess df) col = false := by
      rw [hasColB_preprocess_src df col
        (fun he => absurd (he ▸ hcol) (by decide)) (fun he => absurd (he ▸ hcol) (by decide))
        (fun he => absurd (he ▸ hcol) (by decide)) (fun he => absurd (he ▸ hcol) (by decide))
        (fun he => absurd (he ▸ hcol) (by decide)) (fun he => absurd (he ▸ hcol) (by decide))
        (fun he => absurd (he ▸ hcol) (by decide)) (fun he => absurd (he ▸ hcol) (by decide))]
      exact bool_eq_false _ h
    exact fillStep1_of_none _ _ (getCol_eq_none _ _ h2)

theorem medianFillStep_preprocess (df : DF) :
    medianFillStep (preprocess df) = preprocess df :=
  foldl_id imputeCols (preprocess df) fillStep1
    (fun col hc => fillStep1_preprocess df col hc)

theorem dateFeaturesStep_preprocess (df : DF) :
    dateFeaturesStep (preprocess df) = preprocess df := by
  by_cases h : hasColB (normCols df) "Date" = true
  · obtain ⟨cs, hcs⟩ := getCol_of_hasColB _ _ h
    have hd : getCol (preprocess df) "Date" = some (cs.map toDatetimeCell) :=
      preprocess_date df cs hcs
    obtain ⟨hday, hdow, hmon⟩ := preprocess_date_features df cs hcs
    obtain ⟨s1, s2, s3⟩ := setId_preprocess_features df h
    rw [dateFeaturesStep_of_some _ _ hd, s1 _ hday, s2 _ hdow, s3 _ hmon]
  · have h2 : hasColB (preprocess df) "Date" = false := by
      rw [hasColB_preprocess_src df "Date" (by decide) (by decide) (by decide) (by decide)
        (by decide) (by decide) (by decide) (by decide)]
      exact bool_eq_false _ h
    exact dateFeaturesStep_of_none _ (getCol_eq_none _ _ h2)

theorem routeStep_preprocess (df : DF) : routeStep (preprocess df) = preprocess df := by
  have hP : getCol (preprocess df) "Pickup Location"
      = getCol (normCols df) "Pickup Location" :=
    getCol_preprocess_untouched df "Pickup Location" (by decide) (by decide) (by decide)
      (by decide) (by decide) (by decide) (by decide) (by decide) (by decide) (by decide)
      (by decide) (by decide)
  have hQ : getCol (preprocess df) "Drop Location"
      = getCol (normCols df) "Drop Location" :=
    getCol_preprocess_untouched df "Drop Location" (by decide) (by decide) (by decide)
      (by decide) (by decide) (by decide) (by decide) (by decide) (by decide) (by decide)
      (by decide) (by decide)
  by_cases hp : hasColB (normCols df) "Pickup Location" = true
  · by_cases hq : hasColB (normCols df) "Drop Location" = true
    · obtain ⟨ps, hps⟩ := getCol_of_hasColB _ _ hp
      obtain ⟨qs, hqs⟩ := getCol_of_hasColB _ _ hq
      have hr := preprocess_route df ps qs hps hqs
      rw [routeStep_of_some _ ps qs (hP.trans hps) (hQ.trans hqs)]
      exact setId_preprocess_route df hp hq _ hr
    · exact routeStep_of_none_right _
        (by rw [hQ]; exact getCol_eq_none _ _ (bool_eq_false _ hq))
  · exact routeStep_of_none_left _
      (by rw [hP]; exact getCol_eq_none _ _ (bool_eq_false _ hp))

theorem statusStep_preprocess (df : DF) : statusStep (preprocess df) = preprocess df := by
  by_cases h : hasColB (normCols df) "Booking Status" = true
  · obtain ⟨cs, hcs⟩ := getCol_of_hasColB _ _ h
    obtain ⟨hbs, hic, hica, hii⟩ := preprocess_status df cs hcs
    obtain ⟨s1, s2, s3, s4⟩ := setId_preprocess_status df h
    have hmap : (cs.map statusCell).map statusCell = cs.map statusCell := by
      rw [List.map_map]
      apply List.map_congr_left
      intro c _
      exact statusCell_idem c
    rw [statusStep_of_some _ _ hbs, hmap, s1 _ hbs, s2 _ hic, s3 _ hica, s4 _ hii]
  · have h2 : hasColB (preprocess df) "Booking Status" = false := by
      rw [hasColB_preprocess_src df "Booking Status" (by decide) (by decide) (by decide)
        (by decide) (by decide) (by decide) (by decide) (by decide)]
      exact bool_eq_false _ h
    exact statusStep_of_none _ (getCol_eq_none _ _ h2)

/-- Running the pipeline on its own output changes nothing. -/
theorem preprocess_preprocess (df : DF) :
    preprocess (preprocess df) = preprocess df := by
  rw [preprocess_eq (preprocess df), normCols_preprocess, dateStep_preprocess,
    timeStep_preprocess]
  show statusStep (routeStep (dateFeaturesStep (medianFillStep
    (numericStep (preprocess df))))) = preprocess df
  rw [numericStep_preprocess, medianFillStep_preprocess, dateFeaturesStep_preprocess,
    routeStep_preprocess, statusStep_preprocess]

/-! ### Claim C6 -/

/-- Claim C6: cleaning an already-cleaned table is a no-op; in particular the
column names are unchanged and the already-parsed date column and coerced
numeric columns are unchanged. -/
theorem preprocess_idempotent (df : DF) :
    colNames (preprocess (preprocess df)) = colNames (preprocess df)
    ∧ getCol (preprocess (preprocess df)) "Date" = getCol (preprocess df) "Date"
    ∧ (∀ col ∈ numericCols,
        getCol (preprocess (preprocess df)) col = getCol (preprocess df) col)
    ∧ preprocess (preprocess df) = preprocess df := by
  rw [preprocess_preprocess df]
  exact ⟨rfl, rfl, fun col _ => rfl, rfl⟩

theorem preprocess_idempotent_witness :
    colNames (preprocess (preprocess [⟨"Booking Value", [Cell.str "7", Cell.missing]⟩]))
      = colNames (preprocess [⟨"Booking Value", [Cell.str "7", Cell.missing]⟩])
    ∧ getCol (preprocess (preprocess [⟨"Booking Value", [Cell.str "7", Cell.missing]⟩]))
        "Booking Value"
      = getCol (preprocess [⟨"Booking Value", [Cell.str "7", Cell.missing]⟩])
        "Booking Value" := by
  have h := preprocess_idempotent [⟨"Booking Value", [Cell.str "7", Cell.missing]⟩]
  exact ⟨h.1, h.2.2.1 "Booking Value" (by decide)⟩

end Uber
